import Mathlib

/-!
# io61: a single-buffer cache over a file descriptor

A shallow embedding of `src/io61.cc` and a verification development about it.

* Memory (`cbuf`, the caller's buffers) is a total map from index to byte, and
  `memcpy` is a range update of such a map.
* The system calls `read`, `write`, `lseek`, `close` are the fields of a `Sys σ`
  record acting on a descriptor state `σ`; every function of the program takes
  the record and threads the descriptor state.  Theorems that hold "whatever
  the system calls return" quantify over all `Sys σ`.
* `off_t` values are `Int` (offsets far below `2^63`), `size_t` values are `Nat`,
  and the casts to `int` are `toInt32`, truncation modulo `2^32`.
* The two `while` loops take a fuel argument; a `memcpy` whose length is
  negative or whose `cbuf` range leaves the array is undefined behaviour.
-/

namespace Io61

/-! ## Memory -/

/-- An `unsigned char`. -/
abbrev Byte := UInt8

/-- A region of memory addressed from its base pointer. -/
abbrev Mem := Nat → Byte

/-- The C `memcpy(&dst[d], &src[s], n)`. -/
def memcpy (dst : Mem) (d : Nat) (src : Mem) (s : Nat) (n : Nat) : Mem :=
  fun i => if d ≤ i ∧ i < d + n then src (s + (i - d)) else dst i

/-- The bytes `m[off], ..., m[off + n - 1]`. -/
def slice (m : Mem) (off n : Nat) : List Byte :=
  (List.range n).map (fun i => m (off + i))

/-- A memory region that starts with the bytes of `l` (zero elsewhere). -/
def ofList (l : List Byte) : Mem :=
  fun i => l.getD i 0

/-- The C conversion of a 64-bit integer to `int`: truncation modulo `2^32`. -/
def toInt32 (x : Int) : Int :=
  (x + 2147483648) % 4294967296 - 2147483648

/-! ## The handle -/

/-- The constant `io61_file::bufsize`. -/
def bufsize : Int := 4096

/-- The access mode `O_RDONLY` of `<fcntl.h>`. -/
def O_RDONLY : Int := 0

/-- The access mode `O_WRONLY` of `<fcntl.h>`. -/
def O_WRONLY : Int := 1

/-- The `struct io61_file`. -/
structure io61_file where
  fd : Int
  cbuf : Mem
  mode : Int
  tag : Int
  end_tag : Int
  pos_tag : Int

/-! ## System calls -/

/-- The system calls on the descriptor `f->fd`, as functions of its state `σ`.

* `read w count` is `read(fd, cbuf, count)`: its result, the bytes it stored
  at `cbuf[0..]`, and the new descriptor state.
* `write w buf count` is `write(fd, buf, count)`, with `count` the `off_t`
  difference the program passes.
* `lseek w off` is `lseek(fd, off, SEEK_SET)`.
* `close w` is `close(fd)`. -/
structure Sys (σ : Type) where
  read : σ → Nat → Int × List Byte × σ
  write : σ → Mem → Int → Int × σ
  lseek : σ → Int → Int × σ
  close : σ → Int × σ

/-- Outcome of a call that contains a loop. -/
inductive Run (α : Type) where
  | done (a : α)
  | undefined
  | outOfFuel

/-- Outcome of one iteration of a loop: go round again, return, or fault. -/
inductive Step (α β : Type) where
  | next (s : α)
  | ret (r : β)
  | undefined

/-- The function `io61_fdopen`.  `fresh` is the object `new io61_file` yields:
the source assigns `fd` and `mode` and nothing else; `none` is the failed
`assert(fd >= 0)`. -/
def io61_fdopen (fresh : io61_file) (fd : Int) (mode : Int) : Option io61_file :=
  if fd ≥ 0 then some { fresh with fd := fd, mode := mode } else none

/-- The function `io61_fill`: returns `(int) n`, the handle and the descriptor state. -/
def io61_fill {σ : Type} (sys : Sys σ) (f : io61_file) (w : σ) : Int × io61_file × σ :=
  let f1 := { f with tag := f.end_tag, pos_tag := f.end_tag }
  let r := sys.read w bufsize.toNat
  let n := r.1
  let f2 := { f1 with cbuf := memcpy f1.cbuf 0 (ofList r.2.1) 0 r.2.1.length }
  let f3 := if n ≥ 0 then { f2 with end_tag := f2.end_tag + n } else f2
  (toInt32 n, f3, r.2.2)

/-- The function `io61_flush`. -/
def io61_flush {σ : Type} (sys : Sys σ) (f : io61_file) (w : σ) : Int × io61_file × σ :=
  if f.mode = O_RDONLY then (0, f, w)
  else
    let r := sys.write w f.cbuf (f.pos_tag - f.tag)
    (toInt32 r.1, { f with tag := f.pos_tag }, r.2)

/-- State of the loop of `io61_read`: handle, descriptor, destination, `pos`. -/
abbrev LoopState (σ : Type) := io61_file × σ × Mem × Nat

/-- Result of `io61_read` and `io61_write`: return value, handle, descriptor,
caller's buffer. -/
abbrev IoResult (σ : Type) := Int × io61_file × σ × Mem

/-- Lines 104-107 of `io61_read`: copy from the cache and advance. -/
def io61_read_copy {σ : Type} (f : io61_file) (w : σ) (buf : Mem) (sz pos : Nat) :
    Step (LoopState σ) (IoResult σ) :=
  let cpy_sz := min (toInt32 (f.end_tag - f.pos_tag)) (toInt32 ((sz : Int) - pos))
  let off := f.pos_tag - f.tag
  if cpy_sz < 0 ∨ off < 0 ∨ off + cpy_sz > bufsize then .undefined
  else
    .next ({ f with pos_tag := f.pos_tag + cpy_sz }, w,
      memcpy buf pos f.cbuf off.toNat cpy_sz.toNat, pos + cpy_sz.toNat)

/-- One evaluation of the loop condition and body of `io61_read`. -/
def io61_read_iter {σ : Type} (sys : Sys σ) (f : io61_file) (w : σ) (buf : Mem) (sz pos : Nat) :
    Step (LoopState σ) (IoResult σ) :=
  if pos < sz then
    if f.pos_tag = f.end_tag then
      let r := io61_fill sys f w
      if r.1 = -1 then .ret (-1, r.2.1, r.2.2, buf)
      else if r.2.1.pos_tag = r.2.1.end_tag then .ret (pos, r.2.1, r.2.2, buf)
      else io61_read_copy r.2.1 r.2.2 buf sz pos
    else io61_read_copy f w buf sz pos
  else .ret (pos, f, w, buf)

/-- The loop of `io61_read`, at most `fuel` iterations. -/
def io61_read_loop {σ : Type} (sys : Sys σ) : Nat → io61_file → σ → Mem → Nat → Nat → Run (IoResult σ)
  | 0, _, _, _, _, _ => .outOfFuel
  | fuel + 1, f, w, buf, sz, pos =>
    match io61_read_iter sys f w buf sz pos with
    | .ret r => .done r
    | .undefined => .undefined
    | .next s => io61_read_loop sys fuel s.1 s.2.1 s.2.2.1 sz s.2.2.2

/-- The function `io61_read`. -/
def io61_read {σ : Type} (sys : Sys σ) (fuel : Nat) (f : io61_file) (w : σ) (buf : Mem) (sz : Nat) :
    Run (IoResult σ) :=
  io61_read_loop sys fuel f w buf sz 0

/-- Lines 144-148 of `io61_write`: copy into the cache and advance. -/
def io61_write_copy {σ : Type} (f : io61_file) (w : σ) (buf : Mem) (sz pos : Nat) :
    Step (LoopState σ) (IoResult σ) :=
  let cpy_sz := min (toInt32 (bufsize + f.tag - f.end_tag)) (toInt32 ((sz : Int) - pos))
  let off := f.pos_tag - f.tag
  if cpy_sz < 0 ∨ off < 0 ∨ off + cpy_sz > bufsize then .undefined
  else
    .next ({ f with cbuf := memcpy f.cbuf off.toNat buf pos cpy_sz.toNat,
                    pos_tag := f.pos_tag + cpy_sz,
                    end_tag := f.end_tag + cpy_sz }, w, buf, pos + cpy_sz.toNat)

/-- One evaluation of the loop condition and body of `io61_write`. -/
def io61_write_iter {σ : Type} (sys : Sys σ) (f : io61_file) (w : σ) (buf : Mem) (sz pos : Nat) :
    Step (LoopState σ) (IoResult σ) :=
  if pos < sz then
    if f.end_tag = f.tag + bufsize then
      let r := io61_flush sys f w
      if r.1 = -1 then .ret (-1, r.2.1, r.2.2, buf)
      else io61_write_copy r.2.1 r.2.2 buf sz pos
    else io61_write_copy f w buf sz pos
  else .ret (pos, f, w, buf)

/-- The loop of `io61_write`, at most `fuel` iterations. -/
def io61_write_loop {σ : Type} (sys : Sys σ) : Nat → io61_file → σ → Mem → Nat → Nat → Run (IoResult σ)
  | 0, _, _, _, _, _ => .outOfFuel
  | fuel + 1, f, w, buf, sz, pos =>
    match io61_write_iter sys f w buf sz pos with
    | .ret r => .done r
    | .undefined => .undefined
    | .next s => io61_write_loop sys fuel s.1 s.2.1 s.2.2.1 sz s.2.2.2

/-- The function `io61_write`. -/
def io61_write {σ : Type} (sys : Sys σ) (fuel : Nat) (f : io61_file) (w : σ) (buf : Mem) (sz : Nat) :
    Run (IoResult σ) :=
  io61_write_loop sys fuel f w buf sz 0

/-- The function `io61_seek`. -/
def io61_seek {σ : Type} (sys : Sys σ) (f : io61_file) (w : σ) (pos : Int) : Int × io61_file × σ :=
  let align_pos := pos - Int.tmod pos 4096
  if f.tag ≤ pos ∧ pos < f.end_tag then (0, { f with pos_tag := pos }, w)
  else if f.mode = O_RDONLY then
    let r := sys.lseek w align_pos
    if r.1 ≠ align_pos then (-1, f, r.2)
    else
      let n := io61_fill sys { f with end_tag := align_pos } r.2
      if n.1 = -1 then (-1, n.2.1, n.2.2)
      else (0, { n.2.1 with pos_tag := pos }, n.2.2)
  else if f.mode = O_WRONLY then
    let r := io61_flush sys f w
    if r.1 = -1 then (-1, r.2.1, r.2.2)
    else
      let s := sys.lseek r.2.2 pos
      if s.1 ≠ pos then (-1, r.2.1, s.2)
      else (0, { r.2.1 with tag := align_pos, pos_tag := pos, end_tag := pos }, s.2)
  else (0, f, w)

/-- The function `io61_close`: the status returned and the descriptor state. -/
def io61_close {σ : Type} (sys : Sys σ) (f : io61_file) (w : σ) : Int × σ :=
  let r := io61_flush sys f w
  sys.close r.2.2

/-! ## Descriptors

Two models of what stands behind the descriptor: a regular file, and a
scripted stub that replays given results and records the calls. -/

/-- The bytes of `c` with `bs` written at offset `off` (a gap past the end of
`c` reads as zero bytes); writing no bytes leaves `c` as it is. -/
def overwrite (c : List Byte) (off : Nat) (bs : List Byte) : List Byte :=
  match bs with
  | [] => c
  | _ :: _ => c.take off ++ List.replicate (off - c.length) 0 ++ bs ++ c.drop (off + bs.length)

/-- A descriptor open on a regular file: the file's bytes, the descriptor's
offset, and for each coming `read` the most bytes it will deliver (at least
one; a `read` past the end of the list delivers all it is asked for). -/
structure FileDesc where
  content : List Byte
  offset : Nat
  chunks : List Nat

/-- How many bytes the next `read` of `count` bytes may deliver at most. -/
def FileDesc.quota (w : FileDesc) (count : Nat) : Nat :=
  match w.chunks with
  | [] => count
  | k :: _ => min (max k 1) count

/-- The system calls on a regular file: `read` delivers the bytes at the
offset, up to the quota and the end of the file; `write` transfers every byte
(and fails on a negative count); `lseek` succeeds on offsets `>= 0`; `close`
succeeds. -/
def fileSys : Sys FileDesc where
  read w count :=
    let bs := (w.content.drop w.offset).take (w.quota count)
    ((bs.length : Int), bs,
      { w with offset := w.offset + bs.length, chunks := w.chunks.tail })
  write w buf count :=
    if count < 0 then (-1, w)
    else
      (count, { w with content := overwrite w.content w.offset (slice buf 0 count.toNat),
                       offset := w.offset + count.toNat })
  lseek w off := if off < 0 then (-1, w) else (off, { w with offset := off.toNat })
  close w := (0, w)

/-- A system call as recorded by the stub. -/
inductive Call where
  | read (count : Nat)
  | write (bytes : List Byte)
  | lseek (off : Int)
  | close
  deriving DecidableEq

/-- A stub descriptor: the results of the coming `read`, `write`, `lseek` and
`close` calls, and the calls made so far (oldest first). -/
structure Stub where
  reads : List (Int × List Byte)
  writes : List Int
  seeks : List Int
  closes : List Int
  log : List Call

/-- The system calls on a stub: each call is recorded and returns the next
scripted result; with no result left, `read` reports end of file, `write`
the full count, `lseek` the requested offset and `close` success. -/
def stubSys : Sys Stub where
  read w count :=
    let r := w.reads.headD (0, [])
    (r.1, r.2, { w with reads := w.reads.tail, log := w.log ++ [Call.read count] })
  write w buf count :=
    (w.writes.headD count,
      { w with writes := w.writes.tail, log := w.log ++ [Call.write (slice buf 0 count.toNat)] })
  lseek w off :=
    (w.seeks.headD off, { w with seeks := w.seeks.tail, log := w.log ++ [Call.lseek off] })
  close w :=
    (w.closes.headD 0, { w with closes := w.closes.tail, log := w.log ++ [Call.close] })


/-! ## Predicates on states -/

/-- The cursor and window invariant of the handle: `tag <= pos_tag <= end_tag`
and `end_tag - tag <= bufsize`. -/
def Inv (f : io61_file) : Prop :=
  f.tag ≤ f.pos_tag ∧ f.pos_tag ≤ f.end_tag ∧ f.end_tag - f.tag ≤ bufsize

instance (f : io61_file) : Decidable (Inv f) := by unfold Inv; infer_instance

/-- The bytes a reader of the regular file is still to receive: the part of
the cache from the cursor on, then the file from the descriptor's offset on. -/
def pending (f : io61_file) (w : FileDesc) : List Byte :=
  slice f.cbuf (f.pos_tag - f.tag).toNat (f.end_tag - f.pos_tag).toNat ++ w.content.drop w.offset

/-- A read cache that mirrors the file: the markers are ordered file offsets,
the window holds at most `bufsize` bytes, `cbuf` holds the file's bytes at
`[tag, end_tag)`, and the descriptor stands at `end_tag`. -/
def Coherent (f : io61_file) (w : FileDesc) : Prop :=
  Inv f ∧ 0 ≤ f.tag ∧ (w.offset : Int) = f.end_tag ∧
  slice f.cbuf 0 (f.end_tag - f.tag).toNat
    = (w.content.drop f.tag.toNat).take (f.end_tag - f.tag).toNat

instance (f : io61_file) (w : FileDesc) : Decidable (Coherent f w) := by
  unfold Coherent; infer_instance

/-- The state of a writer that appends to a file: write mode, nothing cached
beyond the cursor, at most `bufsize` bytes cached, descriptor at the end of
the file. -/
def Appending (f : io61_file) (w : FileDesc) : Prop :=
  f.mode = O_WRONLY ∧ f.tag ≤ f.pos_tag ∧ f.pos_tag = f.end_tag ∧
  f.end_tag - f.tag ≤ bufsize ∧ w.offset = w.content.length

/-- The bytes handed to the writer so far: those in the file, then those
cached before the cursor. -/
def written (f : io61_file) (w : FileDesc) : List Byte :=
  w.content ++ slice f.cbuf 0 (f.pos_tag - f.tag).toNat

/-- The window of the cache has a length between 0 and `bufsize`. -/
def WindowOk (f : io61_file) : Prop :=
  0 ≤ f.end_tag - f.tag ∧ f.end_tag - f.tag ≤ bufsize

instance (f : io61_file) : Decidable (WindowOk f) := by unfold WindowOk; infer_instance

/-- Every underlying `read` returns `-1` or a count between 0 and the number
of bytes asked for (4096 in every `read` the program issues). -/
def ReadsConform {σ : Type} (sys : Sys σ) : Prop :=
  ∀ w count, (sys.read w count).1 = -1 ∨
    (0 ≤ (sys.read w count).1 ∧ (sys.read w count).1 ≤ (count : Int))

/-- A property of the handle that an iteration hands on, when it does not fault. -/
def StepKeeps {σ : Type} (P : io61_file → Prop) : Step (LoopState σ) (IoResult σ) → Prop
  | .next s => P s.1
  | .ret r => P r.2.1
  | .undefined => True

/-- The test scenario "write each chunk in turn": `io61_write` is called once
per chunk, from a buffer holding that chunk; the result lists the values the
calls returned. -/
def writeChunks {σ : Type} (sys : Sys σ) (fuel : Nat) :
    io61_file → σ → List (List Byte) → Run (List Int × io61_file × σ)
  | f, w, [] => .done ([], f, w)
  | f, w, c :: cs =>
    match io61_write sys fuel f w (ofList c) c.length with
    | .done r =>
      match writeChunks sys fuel r.2.1 r.2.2.1 cs with
      | .done t => .done (r.1 :: t.1, t.2)
      | .undefined => .undefined
      | .outOfFuel => .outOfFuel
    | .undefined => .undefined
    | .outOfFuel => .outOfFuel


/-- The test scenario "seek to each target in turn": `io61_seek` is called
once per target; the result lists the values the calls returned. -/
def seekEach {σ : Type} (sys : Sys σ) : io61_file → σ → List Int → List Int × io61_file × σ
  | f, w, [] => ([], f, w)
  | f, w, t :: ts =>
    ((io61_seek sys f w t).1 ::
      (seekEach sys (io61_seek sys f w t).2.1 (io61_seek sys f w t).2.2 ts).1,
     (seekEach sys (io61_seek sys f w t).2.1 (io61_seek sys f w t).2.2 ts).2)

/-! ## The copies a call performs -/

/-- The arguments of one `memcpy` of the program: the offset into `cbuf`, the
length `cpy_sz`, and the offset `pos` into the caller's buffer. -/
structure CopyRec where
  off : Int
  len : Int
  pos : Nat

/-- A copy stays inside `cbuf[0, bufsize)` and inside the caller's `[0, sz)`. -/
def CopyRec.InBounds (c : CopyRec) (sz : Nat) : Prop :=
  0 ≤ c.len ∧ 0 ≤ c.off ∧ c.off + c.len ≤ bufsize ∧ (c.pos : Int) + c.len ≤ sz

/-- The `memcpy` of lines 104-105 of `io61_read`, for handle `f` and total `pos`. -/
def io61_read_copy_rec (f : io61_file) (sz pos : Nat) : CopyRec :=
  { off := f.pos_tag - f.tag,
    len := min (toInt32 (f.end_tag - f.pos_tag)) (toInt32 ((sz : Int) - pos)),
    pos := pos }

/-- The `memcpy` of lines 144-145 of `io61_write`, for handle `f` and total `pos`. -/
def io61_write_copy_rec (f : io61_file) (sz pos : Nat) : CopyRec :=
  { off := f.pos_tag - f.tag,
    len := min (toInt32 (bufsize + f.tag - f.end_tag)) (toInt32 ((sz : Int) - pos)),
    pos := pos }

/-- The handle and descriptor with which an iteration of `io61_read` reaches
its copy (lines 104-107), if it does: `none` when the loop ends, the fill
fails or the cache stays empty. -/
def io61_read_copy_at {σ : Type} (sys : Sys σ) (f : io61_file) (w : σ) (sz pos : Nat) :
    Option (io61_file × σ) :=
  if pos < sz then
    if f.pos_tag = f.end_tag then
      if (io61_fill sys f w).1 = -1 then none
      else if (io61_fill sys f w).2.1.pos_tag = (io61_fill sys f w).2.1.end_tag then none
      else some ((io61_fill sys f w).2.1, (io61_fill sys f w).2.2)
    else some (f, w)
  else none

/-- The handle and descriptor with which an iteration of `io61_write` reaches
its copy (lines 144-148), if it does: `none` when the loop ends or the flush
fails. -/
def io61_write_copy_at {σ : Type} (sys : Sys σ) (f : io61_file) (w : σ) (sz pos : Nat) :
    Option (io61_file × σ) :=
  if pos < sz then
    if f.end_tag = f.tag + bufsize then
      if (io61_flush sys f w).1 = -1 then none
      else some ((io61_flush sys f w).2.1, (io61_flush sys f w).2.2)
    else some (f, w)
  else none

/-- The copies performed by the first `fuel` iterations of the loop of `io61_read`. -/
def io61_read_copies {σ : Type} (sys : Sys σ) :
    Nat → io61_file → σ → Mem → Nat → Nat → List CopyRec
  | 0, _, _, _, _, _ => []
  | fuel + 1, f, w, buf, sz, pos =>
    match io61_read_copy_at sys f w sz pos with
    | none => []
    | some g =>
      io61_read_copy_rec g.1 sz pos ::
        (match io61_read_copy g.1 g.2 buf sz pos with
         | .next s => io61_read_copies sys fuel s.1 s.2.1 s.2.2.1 sz s.2.2.2
         | .ret _ => []
         | .undefined => [])

/-- The copies performed by the first `fuel` iterations of the loop of `io61_write`. -/
def io61_write_copies {σ : Type} (sys : Sys σ) :
    Nat → io61_file → σ → Mem → Nat → Nat → List CopyRec
  | 0, _, _, _, _, _ => []
  | fuel + 1, f, w, buf, sz, pos =>
    match io61_write_copy_at sys f w sz pos with
    | none => []
    | some g =>
      io61_write_copy_rec g.1 sz pos ::
        (match io61_write_copy g.1 g.2 buf sz pos with
         | .next s => io61_write_copies sys fuel s.1 s.2.1 s.2.2.1 sz s.2.2.2
         | .ret _ => []
         | .undefined => [])

/-! ## Concrete inputs -/

/-- Memory holding zero bytes. -/
def zeroMem : Mem := fun _ => 0

/-- The ten bytes of the text "0123456789". -/
def digits : List Byte := [48, 49, 50, 51, 52, 53, 54, 55, 56, 57]

/-- A handle on descriptor 3 with the given mode, buffer and markers. -/
def mkHandle (mode : Int) (cbuf : Mem) (tag pos_tag end_tag : Int) : io61_file :=
  { fd := 3, cbuf := cbuf, mode := mode, tag := tag, end_tag := end_tag, pos_tag := pos_tag }

/-- A regular file with the given bytes, the descriptor at offset `off`, and
reads that deliver all they can. -/
def fileAt (content : List Byte) (off : Nat) : FileDesc :=
  { content := content, offset := off, chunks := [] }

/-- A stub whose coming `read`, `write` and `close` calls return the given
results, with nothing recorded yet. -/
def stubWith (reads : List (Int × List Byte)) (writes closes : List Int) : Stub :=
  { reads := reads, writes := writes, seeks := [], closes := closes, log := [] }

/-! ## Memory and casts -/

theorem toInt32_eq_self {x : Int} (h1 : -2147483648 ≤ x) (h2 : x < 2147483648) : toInt32 x = x := by
  unfold toInt32; omega

@[simp] theorem length_slice (m : Mem) (off n : Nat) : (slice m off n).length = n := by
  simp [slice]

theorem getElem_slice (m : Mem) (off n i : Nat) (h : i < (slice m off n).length) :
    (slice m off n)[i] = m (off + i) := by
  simp [slice]

theorem getD_slice (m : Mem) (off n i : Nat) (h : i < n) :
    (slice m off n).getD i 0 = m (off + i) := by
  simp [slice, List.getD_eq_getElem?_getD, h]

theorem slice_ofList (l : List Byte) : slice (ofList l) 0 l.length = l := by
  apply List.ext_getElem
  · simp
  · intro i h1 h2
    simp [slice, ofList, List.getD_eq_getElem?_getD, h2]

theorem slice_add (m : Mem) (off a b : Nat) :
    slice m off (a + b) = slice m off a ++ slice m (off + a) b := by
  apply List.ext_getElem
  · simp
  · intro i h1 h2
    simp only [getElem_slice]
    by_cases hi : i < a
    · rw [List.getElem_append_left (by simpa using hi)]
      simp [getElem_slice]
    · rw [List.getElem_append_right (by simpa using hi)]
      simp only [getElem_slice, length_slice]
      congr 1; omega

theorem drop_slice (m : Mem) (off n k : Nat) :
    (slice m off n).drop k = slice m (off + k) (n - k) := by
  by_cases h : k ≤ n
  · obtain ⟨d, rfl⟩ := Nat.exists_eq_add_of_le h
    rw [slice_add, List.drop_append_of_le_length (by simp)]
    simp
  · have : n - k = 0 := by omega
    rw [this, List.drop_of_length_le (by simp; omega)]
    simp [slice]

theorem slice_congr (m m2 : Mem) (off off2 n : Nat) (h : ∀ i, i < n → m (off + i) = m2 (off2 + i)) :
    slice m off n = slice m2 off2 n := by
  apply List.ext_getElem
  · simp
  · intro i h1 h2
    simp only [getElem_slice]
    exact h i (by simpa using h1)

/-! ## Reading from a regular file -/

theorem read_copy_eq {σ : Type} (f : io61_file) (w : σ) (buf : Mem) (sz pos : Nat)
    (hinv : Inv f) (hlt : f.pos_tag < f.end_tag) (hpos : pos < sz) (hsz : sz < 2147483648) :
    io61_read_copy f w buf sz pos =
      .next ({ f with pos_tag := f.pos_tag + (min (f.end_tag - f.pos_tag).toNat (sz - pos) : Nat) }, w,
        memcpy buf pos f.cbuf (f.pos_tag - f.tag).toNat (min (f.end_tag - f.pos_tag).toNat (sz - pos)),
        pos + min (f.end_tag - f.pos_tag).toNat (sz - pos)) := by
  obtain ⟨h1, h2, h3⟩ := hinv
  unfold bufsize at h3
  have e1 : toInt32 (f.end_tag - f.pos_tag) = f.end_tag - f.pos_tag :=
    toInt32_eq_self (by omega) (by omega)
  have e2 : toInt32 ((sz : Int) - pos) = (sz : Int) - pos :=
    toInt32_eq_self (by omega) (by omega)
  have e3 : min (f.end_tag - f.pos_tag) ((sz : Int) - pos)
      = ((min (f.end_tag - f.pos_tag).toNat (sz - pos) : Nat) : Int) := by omega
  unfold io61_read_copy
  simp only [e1, e2, e3]
  generalize min (f.end_tag - f.pos_tag).toNat (sz - pos) = c at e3
  rw [if_neg (by unfold bufsize; omega)]
  simp only [Int.toNat_ofNat]

theorem quota_le (w : FileDesc) (count : Nat) : w.quota count ≤ count := by
  unfold FileDesc.quota; split <;> omega

theorem quota_pos (w : FileDesc) (count : Nat) (h : 0 < count) : 0 < w.quota count := by
  unfold FileDesc.quota; split <;> omega

theorem fill_fileSys (f : io61_file) (w : FileDesc) :
    io61_fill fileSys f w =
      ((((w.content.drop w.offset).take (w.quota 4096)).length : Int),
       { f with tag := f.end_tag, pos_tag := f.end_tag,
                cbuf := memcpy f.cbuf 0 (ofList ((w.content.drop w.offset).take (w.quota 4096))) 0
                  ((w.content.drop w.offset).take (w.quota 4096)).length,
                end_tag := f.end_tag + (((w.content.drop w.offset).take (w.quota 4096)).length : Int) },
       { w with offset := w.offset + ((w.content.drop w.offset).take (w.quota 4096)).length,
                chunks := w.chunks.tail }) := by
  have hq := quota_le w 4096
  have hl : ((w.content.drop w.offset).take (w.quota 4096)).length ≤ 4096 := by
    rw [List.length_take]; omega
  have hb : bufsize.toNat = 4096 := rfl
  unfold io61_fill
  simp only [fileSys, hb]
  rw [toInt32_eq_self (by omega) (by omega)]
  simp

theorem take_append_drop_min (l : List Byte) (q : Nat) :
    l.take q ++ l.drop (l.take q).length = l := by
  rw [List.length_take]
  by_cases h : q ≤ l.length
  · rw [Nat.min_eq_left h]; exact List.take_append_drop q l
  · rw [Nat.min_eq_right (by omega), List.take_of_length_le (by omega),
      List.drop_of_length_le (by omega)]
    simp

theorem fill_fileSys_spec (f : io61_file) (w : FileDesc) :
    ∃ n : Nat, n ≤ 4096 ∧ (n = 0 → w.content.drop w.offset = []) ∧
      n = min (w.quota 4096) (w.content.length - w.offset) ∧
      (io61_fill fileSys f w).1 = (n : Int) ∧
      (io61_fill fileSys f w).2.1.tag = f.end_tag ∧
      (io61_fill fileSys f w).2.1.pos_tag = f.end_tag ∧
      (io61_fill fileSys f w).2.1.end_tag = f.end_tag + n ∧
      (io61_fill fileSys f w).2.1.mode = f.mode ∧
      (io61_fill fileSys f w).2.2.content = w.content ∧
      (io61_fill fileSys f w).2.2.offset = w.offset + n ∧
      slice (io61_fill fileSys f w).2.1.cbuf 0 n ++ w.content.drop (w.offset + n)
        = w.content.drop w.offset := by
  have hq := quota_le w 4096
  have hq1 := quota_pos w 4096 (by omega)
  refine ⟨((w.content.drop w.offset).take (w.quota 4096)).length, ?_, ?_, ?_, ?_⟩
  · rw [List.length_take]; omega
  · intro h
    rw [List.length_take] at h
    apply List.eq_nil_of_length_eq_zero
    omega
  · rw [List.length_take, List.length_drop]
  · rw [fill_fileSys]
    refine ⟨rfl, rfl, rfl, rfl, rfl, rfl, rfl, ?_⟩
    simp only
    have e : slice (memcpy f.cbuf 0 (ofList ((w.content.drop w.offset).take (w.quota 4096))) 0
        ((w.content.drop w.offset).take (w.quota 4096)).length) 0
        ((w.content.drop w.offset).take (w.quota 4096)).length
        = (w.content.drop w.offset).take (w.quota 4096) := by
      conv_rhs => rw [← slice_ofList ((w.content.drop w.offset).take (w.quota 4096))]
      apply slice_congr
      intro i hi
      unfold memcpy
      rw [if_pos ⟨Nat.zero_le _, by omega⟩]
      simp
    rw [e, ← List.drop_drop]
    exact take_append_drop_min _ _

theorem pending_advance (f : io61_file) (w : FileDesc) (c : Nat) (hinv : Inv f)
    (hc : (c : Int) ≤ f.end_tag - f.pos_tag) :
    pending { f with pos_tag := f.pos_tag + c } w = (pending f w).drop c := by
  obtain ⟨h1, h2, h3⟩ := hinv
  have ea : (f.pos_tag + c - f.tag).toNat = (f.pos_tag - f.tag).toNat + c := by omega
  have eb : (f.end_tag - (f.pos_tag + c)).toNat = (f.end_tag - f.pos_tag).toNat - c := by omega
  unfold pending
  rw [List.drop_append_of_le_length (by simp; omega), drop_slice]
  simp only [ea, eb]

theorem getD_pending (f : io61_file) (w : FileDesc) (i : Nat)
    (hi : (i : Int) < f.end_tag - f.pos_tag) :
    (pending f w).getD i 0 = f.cbuf ((f.pos_tag - f.tag).toNat + i) := by
  have hi2 : i < (f.end_tag - f.pos_tag).toNat := by omega
  unfold pending
  rw [List.getD_append _ _ _ _ (by simpa using hi2)]
  exact getD_slice _ _ _ _ hi2

theorem length_pending_ge (f : io61_file) (w : FileDesc) :
    (f.end_tag - f.pos_tag).toNat ≤ (pending f w).length := by
  unfold pending; simp

/-- What one copy step of `io61_read` achieves on a non-empty cache. -/
theorem read_copy_spec (f : io61_file) (w : FileDesc) (buf : Mem) (sz pos : Nat)
    (hinv : Inv f) (hlt : f.pos_tag < f.end_tag) (hpos : pos < sz) (hsz : sz < 2147483648) :
    ∃ c f' buf', 1 ≤ c ∧ c ≤ sz - pos ∧ c ≤ (pending f w).length ∧
      io61_read_copy f w buf sz pos = .next (f', w, buf', pos + c) ∧
      Inv f' ∧ f'.mode = f.mode ∧ pending f' w = (pending f w).drop c ∧
      (∀ i, i < pos → buf' i = buf i) ∧
      (∀ i, i < c → buf' (pos + i) = (pending f w).getD i 0) ∧
      (∀ i, pos + c ≤ i → buf' i = buf i) := by
  have hlen := length_pending_ge f w
  have hinv2 := hinv
  obtain ⟨h1, h2, h3⟩ := hinv2
  refine ⟨min (f.end_tag - f.pos_tag).toNat (sz - pos), _, _, by omega, by omega, by omega,
    read_copy_eq f w buf sz pos hinv hlt hpos hsz, ?_, rfl, ?_, ?_, ?_, ?_⟩
  · refine ⟨?_, ?_, ?_⟩ <;> simp only <;> omega
  · exact pending_advance f w _ hinv (by omega)
  · intro i hi
    unfold memcpy
    rw [if_neg (by omega)]
  · intro i hi
    unfold memcpy
    rw [if_pos (by omega), getD_pending f w i (by omega)]
    congr 1; omega
  · intro i hi
    unfold memcpy
    rw [if_neg (by omega)]

/-- One iteration of `io61_read` on a regular file: it returns at the end of
the data, or copies at least one of the pending bytes. -/
theorem read_iter_fileSys (f : io61_file) (w : FileDesc) (buf : Mem) (sz pos : Nat)
    (hinv : Inv f) (hpos : pos < sz) (hsz : sz < 2147483648) :
    (pending f w = [] ∧ ∃ f' w', io61_read_iter fileSys f w buf sz pos = .ret (pos, f', w', buf) ∧
        Inv f' ∧ f'.mode = f.mode ∧ pending f' w' = [] ∧ w'.content = w.content) ∨
    (∃ c f' w' buf', 1 ≤ c ∧ c ≤ sz - pos ∧ c ≤ (pending f w).length ∧
      io61_read_iter fileSys f w buf sz pos = .next (f', w', buf', pos + c) ∧
      Inv f' ∧ f'.mode = f.mode ∧ pending f' w' = (pending f w).drop c ∧ w'.content = w.content ∧
      (∀ i, i < pos → buf' i = buf i) ∧
      (∀ i, i < c → buf' (pos + i) = (pending f w).getD i 0) ∧
      (∀ i, pos + c ≤ i → buf' i = buf i)) := by
  unfold io61_read_iter
  rw [if_pos hpos]
  by_cases he : f.pos_tag = f.end_tag
  · rw [if_pos he]
    obtain ⟨n, hn, hnil, -, hr, htag, hpt, hend, hmode, hcont, hoff, hsl⟩ := fill_fileSys_spec f w
    have hpf : pending f w = w.content.drop w.offset := by
      unfold pending
      have : (f.end_tag - f.pos_tag).toNat = 0 := by omega
      rw [this]; simp [slice]
    generalize io61_fill fileSys f w = r at *
    obtain ⟨rv, f', w'⟩ := r
    simp only at hr htag hpt hend hmode hcont hoff hsl ⊢
    have hinv' : Inv f' := by
      refine ⟨?_, ?_, ?_⟩ <;> (try unfold bufsize) <;> omega
    rw [if_neg (by omega)]
    by_cases hz : n = 0
    · left
      rw [if_pos (by omega)]
      refine ⟨by rw [hpf]; exact hnil hz, f', w', rfl, hinv', hmode, ?_, hcont⟩
      unfold pending
      have : (f'.end_tag - f'.pos_tag).toNat = 0 := by omega
      rw [this, hcont, hoff, hz]
      simpa [slice] using hnil hz
    · right
      rw [if_neg (by omega)]
      have hp' : pending f' w' = pending f w := by
        rw [hpf, ← hsl]
        unfold pending
        have e1 : (f'.pos_tag - f'.tag).toNat = 0 := by omega
        have e2 : (f'.end_tag - f'.pos_tag).toNat = n := by omega
        rw [e1, e2, hcont, hoff]
      obtain ⟨c, f'', buf', hc1, hc2, hc3, heq, hi2, hm2, hp2, hb1, hb2, hb3⟩ :=
        read_copy_spec f' w' buf sz pos hinv' (by omega) hpos hsz
      rw [hp'] at hc3 hp2 hb2
      exact ⟨c, f'', w', buf', hc1, hc2, hc3, heq, hi2, hm2.trans hmode, hp2, hcont, hb1, hb2, hb3⟩
  · rw [if_neg he]
    obtain ⟨c, f'', buf', hc1, hc2, hc3, heq, hi2, hm2, hp2, hb1, hb2, hb3⟩ :=
      read_copy_spec f w buf sz pos hinv (by have := hinv.2.1; omega) hpos hsz
    exact Or.inr ⟨c, f'', w, buf', hc1, hc2, hc3, heq, hi2, hm2, hp2, rfl, hb1, hb2, hb3⟩

/-- The loop of `io61_read` on a regular file delivers the pending bytes, up to
the amount requested, and returns their number. -/
theorem read_loop_fileSys (fuel : Nat) : ∀ (f : io61_file) (w : FileDesc) (buf : Mem) (sz pos : Nat),
    Inv f → sz < 2147483648 → pos ≤ sz → sz - pos < fuel →
    ∃ f' w' buf', io61_read_loop fileSys fuel f w buf sz pos
        = .done (((pos + min (sz - pos) (pending f w).length : Nat) : Int), f', w', buf') ∧
      Inv f' ∧ f'.mode = f.mode ∧
      pending f' w' = (pending f w).drop (min (sz - pos) (pending f w).length) ∧
      w'.content = w.content ∧
      (∀ i, i < pos → buf' i = buf i) ∧
      (∀ i, i < min (sz - pos) (pending f w).length → buf' (pos + i) = (pending f w).getD i 0) ∧
      (∀ i, pos + min (sz - pos) (pending f w).length ≤ i → buf' i = buf i) := by
  induction fuel with
  | zero => intro f w buf sz pos _ _ _ h; omega
  | succ fuel ih =>
    intro f w buf sz pos hinv hsz hpos hfuel
    unfold io61_read_loop
    by_cases hlt : pos < sz
    · rcases read_iter_fileSys f w buf sz pos hinv hlt hsz with
        ⟨hnil, f', w', heq, hi, hm, hp, hc⟩ |
        ⟨c, f', w', buf', hc1, hc2, hc3, heq, hi, hm, hp, hc, hb1, hb2, hb3⟩
      · rw [heq, hnil]
        refine ⟨f', w', buf, ?_, hi, hm, ?_, hc, ?_, ?_, ?_⟩
        · simp
        · simpa using hp
        · intro i _; rfl
        · intro i h; simp at h
        · intro i _; rfl
      · rw [heq]
        simp only
        obtain ⟨f2, w2, buf2, heq2, hi2, hm2, hp2, hc2', hb1', hb2', hb3'⟩ :=
          ih f' w' buf' sz (pos + c) hi hsz (by omega) (by omega)
        rw [hp] at heq2 hp2 hb2'
        rw [List.length_drop] at heq2 hp2 hb2'
        have hmin : pos + c + min (sz - (pos + c)) ((pending f w).length - c)
            = pos + min (sz - pos) (pending f w).length := by omega
        rw [hp, List.length_drop] at hb3'
        refine ⟨f2, w2, buf2, ?_, hi2, hm2.trans hm, ?_, hc2'.trans hc, ?_, ?_, ?_⟩
        · rw [heq2, hmin]
        · rw [hp2, List.drop_drop]
          congr 1; omega
        · intro i h
          rw [hb1' i (by omega), hb1 i h]
        · intro i h
          by_cases hic : i < c
          · rw [hb1' (pos + i) (by omega), hb2 i hic]
          · have := hb2' (i - c) (by omega)
            rw [List.getD_eq_getElem?_getD, List.getElem?_drop] at this
            rw [List.getD_eq_getElem?_getD]
            have e1 : pos + c + (i - c) = pos + i := by omega
            have e2 : c + (i - c) = i := by omega
            rw [e1, e2] at this
            exact this
        · intro i h
          rw [hb3' i (by omega), hb3 i (by omega)]
    · have hps : pos = sz := by omega
      subst hps
      unfold io61_read_iter
      rw [if_neg hlt]
      refine ⟨f, w, buf, ?_, hinv, rfl, ?_, rfl, ?_, ?_, ?_⟩
      · simp
      · simp
      · intro i _; rfl
      · intro i h; simp at h
      · intro i _; rfl
theorem read_at_eof (fuel : Nat) (f : io61_file) (w : FileDesc) (buf : Mem) (sz : Nat)
    (hinv : Inv f) (hnil : pending f w = []) (hsz : 1 ≤ sz) :
    ∃ f' w', io61_read fileSys (fuel + 1) f w buf sz = .done (0, f', w', buf) := by
  obtain ⟨h1, h2, h3⟩ := hinv
  unfold pending at hnil
  rw [List.append_eq_nil] at hnil
  obtain ⟨ha, hb⟩ := hnil
  have hlen := congrArg List.length ha
  simp only [length_slice, List.length_nil] at hlen
  obtain ⟨n, hn, hnil, hmin, hr, htag, hpt, hend, hmode, hcont, hoff, hsl⟩ := fill_fileSys_spec f w
  have hbl := congrArg List.length hb
  simp only [List.length_drop, List.length_nil] at hbl
  have hn0 : n = 0 := by omega
  have hpe : f.pos_tag = f.end_tag := by omega
  have hiter : io61_read_iter fileSys f w buf sz 0
      = .ret (0, (io61_fill fileSys f w).2.1, (io61_fill fileSys f w).2.2, buf) := by
    unfold io61_read_iter
    rw [if_pos (by omega), if_pos hpe]
    simp only
    rw [if_neg (by omega), if_pos (by omega)]
    rfl
  unfold io61_read io61_read_loop
  rw [hiter]
  exact ⟨_, _, rfl⟩

theorem tmod_4096 (o : Int) (h : 0 ≤ o) : Int.tmod o 4096 = o % 4096 := by
  rw [Int.tmod_eq_emod h (by omega)]

/-- After a seek on a coherent read cache the reader faces the file's bytes
from the target offset on. -/
theorem seek_fileSys_pending (f : io61_file) (w : FileDesc) (o : Nat)
    (hmode : f.mode = O_RDONLY) (hcoh : Coherent f w) (hch : w.chunks = [])
    (ho : o ≤ w.content.length) :
    (io61_seek fileSys f w o).1 = 0 ∧ Inv (io61_seek fileSys f w o).2.1 ∧
      pending (io61_seek fileSys f w o).2.1 (io61_seek fileSys f w o).2.2 = w.content.drop o := by
  obtain ⟨hinv, htag0, hoff, hbuf⟩ := hcoh
  have hinv2 := hinv
  obtain ⟨h1, h2, h3⟩ := hinv2
  unfold bufsize at h3
  unfold io61_seek
  by_cases hfast : f.tag ≤ (o : Int) ∧ (o : Int) < f.end_tag
  · rw [if_pos hfast]
    obtain ⟨hf1, hf2⟩ := hfast
    refine ⟨rfl, ⟨hf1, by simp only; omega, by unfold bufsize; simp only; omega⟩, ?_⟩
    simp only [pending]
    have hlen := congrArg List.length hbuf
    simp only [length_slice, List.length_take, List.length_drop] at hlen
    have e1 : ((o : Int) - f.tag).toNat = 0 + (o - f.tag.toNat) := by omega
    have e2 : (f.end_tag - (o : Int)).toNat = (f.end_tag - f.tag).toNat - (o - f.tag.toNat) := by omega
    rw [e1, e2, ← drop_slice, hbuf, List.drop_take, List.drop_drop]
    have e3 : f.tag.toNat + (o - f.tag.toNat) = o := by omega
    have e4 : w.offset = o + ((f.end_tag - f.tag).toNat - (o - f.tag.toNat)) := by omega
    rw [e3, e4, ← List.drop_drop]
    exact List.take_append_drop _ _
  · rw [if_neg hfast, if_pos hmode]
    have hal : Int.tmod (o : Int) 4096 = (o : Int) % 4096 := tmod_4096 _ (by omega)
    simp only [hal]
    have hls : fileSys.lseek w ((o : Int) - (o : Int) % 4096)
        = ((o : Int) - (o : Int) % 4096,
            { w with offset := ((o : Int) - (o : Int) % 4096).toNat }) := by
      simp only [fileSys]
      rw [if_neg (by omega)]
    rw [hls]
    simp only [ne_eq, not_true_eq_false, if_false]
    obtain ⟨n, hn, hnil, hmin, hr, htag, hpt, hend, hmd, hcont, hoff', hsl⟩ :=
      fill_fileSys_spec { f with end_tag := (o : Int) - (o : Int) % 4096 }
        { w with offset := ((o : Int) - (o : Int) % 4096).toNat }
    generalize io61_fill fileSys { f with end_tag := (o : Int) - (o : Int) % 4096 }
        { w with offset := ((o : Int) - (o : Int) % 4096).toNat } = r at *
    obtain ⟨rv, f', w'⟩ := r
    simp only at hr htag hpt hend hmd hcont hoff' hsl hmin ⊢
    have hquota : FileDesc.quota { w with offset := ((o : Int) - (o : Int) % 4096).toNat } 4096 = 4096 := by
      simp [FileDesc.quota, hch]
    rw [hquota] at hmin
    rw [if_neg (by omega)]
    refine ⟨rfl, ⟨by simp only; omega, by simp only; omega, by unfold bufsize; simp only; omega⟩, ?_⟩
    simp only [pending]
    have e1 : ((o : Int) - f'.tag).toNat = 0 + (o - ((o : Int) - (o : Int) % 4096).toNat) := by omega
    have e2 : (f'.end_tag - (o : Int)).toNat = n - (o - ((o : Int) - (o : Int) % 4096).toNat) := by omega
    rw [e1, e2, ← drop_slice, hcont, hoff', ← List.drop_append_of_le_length (by simp; omega), hsl,
      List.drop_drop]
    congr 1; omega


/-! ## Writing to a regular file -/

theorem overwrite_at_length (c bs : List Byte) : overwrite c c.length bs = c ++ bs := by
  unfold overwrite
  cases bs with
  | nil => simp
  | cons b bs =>
    simp only
    rw [List.take_length, List.drop_of_length_le (by simp)]
    simp

theorem flush_appending (f : io61_file) (w : FileDesc) (h : Appending f w) :
    (io61_flush fileSys f w).1 = f.pos_tag - f.tag ∧
    (io61_flush fileSys f w).2.1 = { f with tag := f.pos_tag } ∧
    Appending (io61_flush fileSys f w).2.1 (io61_flush fileSys f w).2.2 ∧
    written (io61_flush fileSys f w).2.1 (io61_flush fileSys f w).2.2 = written f w ∧
    (io61_flush fileSys f w).2.2.content = written f w := by
  obtain ⟨hm, h1, h2, h3, h4⟩ := h
  unfold bufsize at h3
  have hmode : ¬ f.mode = O_RDONLY := by rw [hm]; decide
  have hfl : io61_flush fileSys f w = (f.pos_tag - f.tag, { f with tag := f.pos_tag },
      { w with content := w.content ++ slice f.cbuf 0 (f.pos_tag - f.tag).toNat,
               offset := w.offset + (f.pos_tag - f.tag).toNat }) := by
    unfold io61_flush
    rw [if_neg hmode]
    simp only [fileSys]
    rw [if_neg (by omega)]
    simp only
    rw [toInt32_eq_self (by omega) (by omega), h4, overwrite_at_length]
  rw [hfl]
  refine ⟨rfl, rfl, ⟨hm, ?_, h2, ?_, ?_⟩, ?_, rfl⟩
  · simp only; omega
  · unfold bufsize; simp only; omega
  · simp only [List.length_append, length_slice]; omega
  · simp only [written]
    have : (f.pos_tag - f.pos_tag).toNat = 0 := by omega
    rw [this]; simp [slice]

theorem write_copy_spec (f : io61_file) (w : FileDesc) (buf : Mem) (sz pos : Nat)
    (h : Appending f w) (hroom : f.end_tag - f.tag < bufsize) (hpos : pos < sz)
    (hsz : sz < 2147483648) :
    ∃ c f', 1 ≤ c ∧ c ≤ sz - pos ∧
      io61_write_copy f w buf sz pos = .next (f', w, buf, pos + c) ∧
      Appending f' w ∧ written f' w = written f w ++ slice buf pos c := by
  obtain ⟨hm, h1, h2, h3, h4⟩ := h
  unfold bufsize at h3 hroom
  have e1 : toInt32 (bufsize + f.tag - f.end_tag) = 4096 + f.tag - f.end_tag := by
    unfold bufsize; exact toInt32_eq_self (by omega) (by omega)
  have e2 : toInt32 ((sz : Int) - pos) = (sz : Int) - pos :=
    toInt32_eq_self (by omega) (by omega)
  have e3 : min (4096 + f.tag - f.end_tag) ((sz : Int) - pos)
      = ((min (4096 + f.tag - f.end_tag).toNat (sz - pos) : Nat) : Int) := by omega
  have hc1 : 1 ≤ min (4096 + f.tag - f.end_tag).toNat (sz - pos) := by omega
  have hc2 : min (4096 + f.tag - f.end_tag).toNat (sz - pos) ≤ sz - pos := by omega
  have hc3 : ((min (4096 + f.tag - f.end_tag).toNat (sz - pos) : Nat) : Int)
      ≤ 4096 + f.tag - f.end_tag := by omega
  generalize min (4096 + f.tag - f.end_tag).toNat (sz - pos) = c at e3 hc1 hc2 hc3
  refine ⟨c, { f with cbuf := memcpy f.cbuf (f.pos_tag - f.tag).toNat buf pos c,
                      pos_tag := f.pos_tag + c, end_tag := f.end_tag + c },
    hc1, hc2, ?_, ⟨hm, ?_, ?_, ?_, h4⟩, ?_⟩
  · unfold io61_write_copy
    simp only [e1, e2, e3]
    rw [if_neg (by unfold bufsize; omega)]
    simp only [Int.toNat_ofNat]
  · simp only; omega
  · simp only; omega
  · unfold bufsize; simp only; omega
  · simp only [written]
    have ea : (f.pos_tag + (c : Int) - f.tag).toNat = (f.pos_tag - f.tag).toNat + c := by omega
    rw [ea, slice_add, List.append_assoc]
    congr 2
    · apply slice_congr
      intro i hi
      unfold memcpy
      rw [if_neg (by omega)]
    · apply slice_congr
      intro i hi
      unfold memcpy
      rw [if_pos (by omega)]
      congr 1; omega

/-- One iteration of `io61_write` on an appending writer buffers at least one
byte of the source. -/
theorem write_iter_fileSys (f : io61_file) (w : FileDesc) (buf : Mem) (sz pos : Nat)
    (h : Appending f w) (hpos : pos < sz) (hsz : sz < 2147483648) :
    ∃ c f' w', 1 ≤ c ∧ c ≤ sz - pos ∧
      io61_write_iter fileSys f w buf sz pos = .next (f', w', buf, pos + c) ∧
      Appending f' w' ∧ written f' w' = written f w ++ slice buf pos c := by
  unfold io61_write_iter
  rw [if_pos hpos]
  by_cases hfull : f.end_tag = f.tag + bufsize
  · rw [if_pos hfull]
    obtain ⟨hr, hf, happ, hwr, -⟩ := flush_appending f w h
    obtain ⟨hm, h1, h2, h3, h4⟩ := h
    generalize io61_flush fileSys f w = r at *
    obtain ⟨rv, f1, w1⟩ := r
    simp only at hr hf happ hwr ⊢
    rw [if_neg (by unfold bufsize at hfull; omega)]
    obtain ⟨c, f', hc1, hc2, heq, ha, hw⟩ := write_copy_spec f1 w1 buf sz pos happ
      (by rw [hf]; unfold bufsize; simp only; omega) hpos hsz
    exact ⟨c, f', w1, hc1, hc2, heq, ha, by rw [hw, hwr]⟩
  · rw [if_neg hfull]
    obtain ⟨c, f', hc1, hc2, heq, ha, hw⟩ := write_copy_spec f w buf sz pos h
      (by have := h.2.2.2.1; omega) hpos hsz
    exact ⟨c, f', w, hc1, hc2, heq, ha, hw⟩

/-- The loop of `io61_write` on an appending writer takes all the source and
returns its size. -/
theorem write_loop_fileSys (fuel : Nat) : ∀ (f : io61_file) (w : FileDesc) (buf : Mem) (sz pos : Nat),
    Appending f w → sz < 2147483648 → pos ≤ sz → sz - pos < fuel →
    ∃ f' w', io61_write_loop fileSys fuel f w buf sz pos = .done ((sz : Int), f', w', buf) ∧
      Appending f' w' ∧ written f' w' = written f w ++ slice buf pos (sz - pos) := by
  induction fuel with
  | zero => intro f w buf sz pos _ _ _ h; omega
  | succ fuel ih =>
    intro f w buf sz pos happ hsz hpos hfuel
    unfold io61_write_loop
    by_cases hlt : pos < sz
    · obtain ⟨c, f', w', hc1, hc2, heq, ha, hw⟩ := write_iter_fileSys f w buf sz pos happ hlt hsz
      rw [heq]
      simp only
      obtain ⟨f2, w2, heq2, ha2, hw2⟩ := ih f' w' buf sz (pos + c) ha hsz (by omega) (by omega)
      refine ⟨f2, w2, heq2, ha2, ?_⟩
      rw [hw2, hw, List.append_assoc, ← slice_add]
      congr 2; omega
    · have hps : pos = sz := by omega
      subst hps
      unfold io61_write_iter
      rw [if_neg hlt]
      exact ⟨f, w, rfl, happ, by simp [slice]⟩

theorem writeChunks_fileSys (fuel : Nat) : ∀ (chunks : List (List Byte)) (f : io61_file) (w : FileDesc),
    Appending f w → chunks.flatten.length < 2147483648 → chunks.flatten.length < fuel →
    ∃ f' w', writeChunks fileSys fuel f w chunks
        = .done (chunks.map (fun c => (c.length : Int)), f', w') ∧
      Appending f' w' ∧ written f' w' = written f w ++ chunks.flatten := by
  intro chunks
  induction chunks with
  | nil =>
    intro f w h _ _
    exact ⟨f, w, rfl, h, by simp⟩
  | cons c cs ih =>
    intro f w h hlen hfuel
    simp only [List.flatten_cons, List.length_append] at hlen hfuel
    obtain ⟨f1, w1, heq, ha, hw⟩ := write_loop_fileSys fuel f w (ofList c) c.length 0 h
      (by omega) (by omega) (by omega)
    obtain ⟨f2, w2, heq2, ha2, hw2⟩ := ih f1 w1 ha (by omega) (by omega)
    refine ⟨f2, w2, ?_, ha2, ?_⟩
    · unfold writeChunks io61_write
      rw [heq]
      simp only
      rw [heq2]
      simp
    · rw [hw2, hw, Nat.sub_zero, slice_ofList]
      simp

theorem slice_eq_of_getD (m : Mem) (l : List Byte) (n : Nat) (hn : n ≤ l.length)
    (h : ∀ i, i < n → m (0 + i) = l.getD i 0) : slice m 0 n = l.take n := by
  apply List.ext_getElem
  · simp; omega
  · intro i h1 h2
    simp only [getElem_slice, List.getElem_take]
    rw [h i (by simpa using h1), List.getD_eq_getElem?_getD, List.getElem?_eq_getElem (by simp at h1; omega)]
    simp

/-! ## Invariants under arbitrary system calls -/

theorem Inv.window {f : io61_file} (h : Inv f) : WindowOk f := by
  obtain ⟨h1, h2, h3⟩ := h
  exact ⟨by omega, h3⟩

theorem fill_inv {σ : Type} (sys : Sys σ) (hread : ReadsConform sys) (f : io61_file) (w : σ) :
    Inv (io61_fill sys f w).2.1 ∧ (io61_fill sys f w).2.1.tag = f.end_tag := by
  have hb : bufsize.toNat = 4096 := rfl
  have hr := hread w 4096
  unfold io61_fill
  simp only [hb]
  by_cases hn : (sys.read w 4096).1 ≥ 0
  · rw [if_pos hn]
    refine ⟨⟨?_, ?_, ?_⟩, ?_⟩ <;> (try unfold bufsize) <;> simp only <;> omega
  · rw [if_neg hn]
    refine ⟨⟨?_, ?_, ?_⟩, ?_⟩ <;> (try unfold bufsize) <;> simp only <;> omega

theorem flush_inv {σ : Type} (sys : Sys σ) (f : io61_file) (w : σ) (h : Inv f) : Inv (io61_flush sys f w).2.1 := by
  obtain ⟨h1, h2, h3⟩ := h
  unfold io61_flush
  split
  · exact ⟨h1, h2, h3⟩
  · exact ⟨le_refl _, h2, by unfold bufsize at *; simp only; omega⟩

theorem read_copy_inv {σ : Type} (f : io61_file) (w : σ) (buf : Mem) (sz pos : Nat) (h : Inv f) :
    StepKeeps Inv (io61_read_copy f w buf sz pos) := by
  obtain ⟨h1, h2, h3⟩ := h
  unfold bufsize at h3
  unfold io61_read_copy
  simp only
  split
  · trivial
  · rename_i hc
    have e : toInt32 (f.end_tag - f.pos_tag) = f.end_tag - f.pos_tag :=
      toInt32_eq_self (by omega) (by omega)
    rw [e] at hc ⊢
    simp only [StepKeeps]
    refine ⟨?_, ?_, ?_⟩ <;> (try unfold bufsize) <;> simp only <;> omega

theorem read_iter_inv {σ : Type} (sys : Sys σ) (hread : ReadsConform sys) (f : io61_file) (w : σ) (buf : Mem)
    (sz pos : Nat) (h : Inv f) : StepKeeps Inv (io61_read_iter sys f w buf sz pos) := by
  unfold io61_read_iter
  split
  · split
    · simp only
      split
      · exact (fill_inv sys hread f w).1
      · split
        · exact (fill_inv sys hread f w).1
        · exact read_copy_inv _ _ _ _ _ (fill_inv sys hread f w).1
    · exact read_copy_inv _ _ _ _ _ h
  · exact h

theorem read_loop_inv {σ : Type} (sys : Sys σ) (hread : ReadsConform sys) (fuel : Nat) :
    ∀ (f : io61_file) (w : σ) (buf : Mem) (sz pos : Nat) (r : IoResult σ), Inv f →
      io61_read_loop sys fuel f w buf sz pos = .done r → Inv r.2.1 := by
  induction fuel with
  | zero => intro f w buf sz pos r _ h; simp [io61_read_loop] at h
  | succ fuel ih =>
    intro f w buf sz pos r hinv h
    unfold io61_read_loop at h
    have hk := read_iter_inv sys hread f w buf sz pos hinv
    generalize io61_read_iter sys f w buf sz pos = st at h hk
    cases st with
    | next s => exact ih _ _ _ _ _ r hk h
    | ret r' =>
      simp only [Run.done.injEq] at h
      subst h
      exact hk
    | undefined => simp at h

theorem write_copy_inv {σ : Type} (f : io61_file) (w : σ) (buf : Mem) (sz pos : Nat) (h : Inv f) :
    StepKeeps Inv (io61_write_copy f w buf sz pos) := by
  obtain ⟨h1, h2, h3⟩ := h
  unfold bufsize at h3
  unfold io61_write_copy
  simp only
  split
  · trivial
  · rename_i hc
    have e : toInt32 (bufsize + f.tag - f.end_tag) = 4096 + f.tag - f.end_tag := by
      unfold bufsize; exact toInt32_eq_self (by omega) (by omega)
    rw [e] at hc ⊢
    simp only [StepKeeps]
    refine ⟨?_, ?_, ?_⟩ <;> (try unfold bufsize) <;> simp only <;> omega

theorem write_iter_inv {σ : Type} (sys : Sys σ) (f : io61_file) (w : σ) (buf : Mem)
    (sz pos : Nat) (h : Inv f) : StepKeeps Inv (io61_write_iter sys f w buf sz pos) := by
  unfold io61_write_iter
  split
  · split
    · simp only
      split
      · exact flush_inv sys f w h
      · exact write_copy_inv _ _ _ _ _ (flush_inv sys f w h)
    · exact write_copy_inv _ _ _ _ _ h
  · exact h

theorem write_loop_inv {σ : Type} (sys : Sys σ) (fuel : Nat) :
    ∀ (f : io61_file) (w : σ) (buf : Mem) (sz pos : Nat) (r : IoResult σ), Inv f →
      io61_write_loop sys fuel f w buf sz pos = .done r → Inv r.2.1 := by
  induction fuel with
  | zero => intro f w buf sz pos r _ h; simp [io61_write_loop] at h
  | succ fuel ih =>
    intro f w buf sz pos r hinv h
    unfold io61_write_loop at h
    have hk := write_iter_inv sys f w buf sz pos hinv
    generalize io61_write_iter sys f w buf sz pos = st at h hk
    cases st with
    | next s => exact ih _ _ _ _ _ r hk h
    | ret r' =>
      simp only [Run.done.injEq] at h
      subst h
      exact hk
    | undefined => simp at h

theorem seek_window {σ : Type} (sys : Sys σ) (hread : ReadsConform sys) (f : io61_file) (w : σ) (pos : Int)
    (hpos : 0 ≤ pos) (h : Inv f) : WindowOk (io61_seek sys f w pos).2.1 := by
  have hw := h.window
  have hal : Int.tmod pos 4096 = pos % 4096 := tmod_4096 pos hpos
  unfold io61_seek
  simp only [hal]
  split
  · exact hw
  · split
    · split
      · exact hw
      · have hf := (fill_inv sys hread { f with end_tag := pos - pos % 4096 }
          (sys.lseek w (pos - pos % 4096)).2).1.window
        split
        · exact hf
        · exact hf
    · split
      · have hf := (flush_inv sys f w h).window
        split
        · exact hf
        · split
          · exact hf
          · exact ⟨by simp only; omega, by unfold bufsize; simp only; omega⟩
      · exact hw


/-! ## The claims -/

theorem pending_of_empty (f : io61_file) (w : FileDesc) (h : f.pos_tag = f.end_tag) :
    pending f w = w.content.drop w.offset := by
  unfold pending
  have : (f.end_tag - f.pos_tag).toNat = 0 := by omega
  rw [this]; simp [slice]

/-- What `io61_read` returns on a regular file: the first `min sz |pending|`
pending bytes, in order, at the start of the destination. -/
theorem read_fileSys (fuel : Nat) (f : io61_file) (w : FileDesc) (buf : Mem) (sz : Nat)
    (hinv : Inv f) (hsz : sz < 2147483648) (hfuel : sz < fuel) :
    ∃ f' w' buf', io61_read fileSys fuel f w buf sz
        = .done (((min sz (pending f w).length : Nat) : Int), f', w', buf') ∧
      Inv f' ∧ pending f' w' = (pending f w).drop (min sz (pending f w).length) ∧
      slice buf' 0 (min sz (pending f w).length)
        = (pending f w).take (min sz (pending f w).length) := by
  obtain ⟨f', w', buf', heq, hi, -, hp, -, -, hb, -⟩ :=
    read_loop_fileSys fuel f w buf sz 0 hinv hsz (by omega) (by omega)
  simp only [Nat.sub_zero, Nat.zero_add] at heq hp hb
  refine ⟨f', w', buf', heq, hi, hp, ?_⟩
  apply slice_eq_of_getD _ _ _ (by omega)
  intro i h
  rw [Nat.zero_add]
  exact hb i h

/-- C3 (short read): on a handle with an empty cache over a source with `k`
bytes left (`k` = file length minus descriptor offset), whatever quota between
1 and 4096 each underlying `read` is held to, `io61_read` of a size above `k`
(and below `2^31`) returns exactly `k` with those `k` bytes in order in the
destination, and the next `io61_read` of any size `>= 1` returns `0`. -/
theorem short_read_returns_remaining (f : io61_file) (w : FileDesc) (dest dest2 : Mem)
    (sz sz2 fuel fuel2 : Nat)
    (hempty : f.tag = f.pos_tag ∧ f.pos_tag = f.end_tag)
    (hk : w.content.length - w.offset < sz) (hsz : sz < 2147483648) (hfuel : sz < fuel)
    (hsz2 : 1 ≤ sz2) (hfuel2 : 1 ≤ fuel2) :
    ∃ f' w' dest', io61_read fileSys fuel f w dest sz
        = .done (((w.content.length - w.offset : Nat) : Int), f', w', dest') ∧
      slice dest' 0 (w.content.length - w.offset) = w.content.drop w.offset ∧
      ∃ f'' w'', io61_read fileSys fuel2 f' w' dest2 sz2 = .done (0, f'', w'', dest2) := by
  have hinv : Inv f := ⟨by omega, by omega, by unfold bufsize; omega⟩
  obtain ⟨f', w', dest', heq, hi, hp, hb⟩ := read_fileSys fuel f w dest sz hinv hsz hfuel
  rw [pending_of_empty f w hempty.2, List.length_drop] at heq hp hb
  have hmin : min sz (w.content.length - w.offset) = w.content.length - w.offset := by omega
  rw [hmin] at heq hp hb
  refine ⟨f', w', dest', heq, ?_, ?_⟩
  · rw [hb, List.take_of_length_le (by simp)]
  · rw [List.drop_of_length_le (by simp)] at hp
    obtain ⟨n, rfl⟩ : ∃ n, fuel2 = n + 1 := ⟨fuel2 - 1, by omega⟩
    exact read_at_eof n f' w' dest2 sz2 hi hp hsz2

/-- C3 at a source of ten bytes delivered 3, then 1, then 6 at a time: a read
of 11 bytes returns 10, and the next read returns 0. -/
theorem short_read_returns_remaining_witness :
    ((mkHandle O_RDONLY zeroMem 0 0 0).tag = (mkHandle O_RDONLY zeroMem 0 0 0).pos_tag ∧
      (mkHandle O_RDONLY zeroMem 0 0 0).pos_tag = (mkHandle O_RDONLY zeroMem 0 0 0).end_tag) ∧
    ∃ f' w' dest', io61_read fileSys 12 (mkHandle O_RDONLY zeroMem 0 0 0)
        { content := digits, offset := 0, chunks := [3, 1] } zeroMem 11 = .done (10, f', w', dest') ∧
      slice dest' 0 10 = digits ∧
      ∃ f'' w'', io61_read fileSys 1 f' w' zeroMem 5 = .done (0, f'', w'', zeroMem) :=
  ⟨by decide, short_read_returns_remaining (mkHandle O_RDONLY zeroMem 0 0 0)
    { content := digits, offset := 0, chunks := [3, 1] } zeroMem zeroMem 11 5 12 1
    (by decide) (by decide) (by decide) (by decide) (by decide) (by decide)⟩

/-- C2 (seek then read): on a read cache coherent with the file, with reads
delivering `min(4096, bytes remaining)`, `io61_seek` to an offset `o` within
the file returns `0`, and the `io61_read` of `m < 2^31` bytes that follows
returns `min(m, |c| - o)` and puts the file's bytes `[o, o + min(m, |c| - o))`
at the start of the destination. -/
theorem seek_then_read_consistent (f : io61_file) (w : FileDesc) (o m fuel : Nat) (dest : Mem)
    (hmode : f.mode = O_RDONLY) (hcoh : Coherent f w) (hch : w.chunks = [])
    (ho : o ≤ w.content.length) (hm : m < 2147483648) (hfuel : m < fuel) :
    (io61_seek fileSys f w o).1 = 0 ∧
    ∃ f' w' dest', io61_read fileSys fuel (io61_seek fileSys f w o).2.1
          (io61_seek fileSys f w o).2.2 dest m
        = .done (((min m (w.content.length - o) : Nat) : Int), f', w', dest') ∧
      slice dest' 0 (min m (w.content.length - o))
        = (w.content.drop o).take (min m (w.content.length - o)) := by
  obtain ⟨hr, hinv, hp⟩ := seek_fileSys_pending f w o hmode hcoh hch ho
  obtain ⟨f', w', dest', heq, -, -, hb⟩ :=
    read_fileSys fuel (io61_seek fileSys f w o).2.1 (io61_seek fileSys f w o).2.2 dest m
      hinv hm hfuel
  rw [hp, List.length_drop] at heq hb
  exact ⟨hr, f', w', dest', heq, hb⟩

/-- C2 at the content "0123456789": with the whole file cached and the cursor
at 4, seek to 2 then read 3 gives "234". -/
theorem seek_then_read_consistent_witness :
    (mkHandle O_RDONLY (ofList digits) 0 4 10).mode = O_RDONLY ∧
    Coherent (mkHandle O_RDONLY (ofList digits) 0 4 10) (fileAt digits 10) ∧
    (io61_seek fileSys (mkHandle O_RDONLY (ofList digits) 0 4 10) (fileAt digits 10) 2).1 = 0 ∧
    ∃ f' w' dest', io61_read fileSys 4
          (io61_seek fileSys (mkHandle O_RDONLY (ofList digits) 0 4 10) (fileAt digits 10) 2).2.1
          (io61_seek fileSys (mkHandle O_RDONLY (ofList digits) 0 4 10) (fileAt digits 10) 2).2.2
          zeroMem 3
        = .done (3, f', w', dest') ∧
      slice dest' 0 3 = [50, 51, 52] :=
  ⟨rfl, by decide, seek_then_read_consistent (mkHandle O_RDONLY (ofList digits) 0 4 10)
    (fileAt digits 10) 2 3 4 zeroMem rfl (by decide) rfl (by decide) (by decide) (by decide)⟩

theorem close_appending (f : io61_file) (w : FileDesc) (h : Appending f w) :
    (io61_close fileSys f w).1 = 0 ∧ (io61_close fileSys f w).2.content = written f w := by
  obtain ⟨-, -, -, -, hc⟩ := flush_appending f w h
  unfold io61_close
  exact ⟨rfl, hc⟩

/-- C1 (round trip): the chunks of `data` (`N < 2^31` bytes, split in any way)
written in order by `io61_write` through a write handle with empty cache at 0
over an empty file, then `io61_close`, leave the file holding exactly `data`
(each write returning its chunk's size); a read handle with empty cache at 0
over that file then gets `N` from `io61_read(N)`, the destination holding
`data` byte for byte. -/
theorem write_close_read_round_trip (data : List Byte) (chunks : List (List Byte))
    (f g : io61_file) (w : FileDesc) (dest : Mem) (fuel : Nat)
    (hsplit : chunks.flatten = data) (hN : data.length < 2147483648) (hfuel : data.length < fuel)
    (hf : f.mode = O_WRONLY ∧ f.tag = 0 ∧ f.pos_tag = 0 ∧ f.end_tag = 0)
    (hw : w.content = [] ∧ w.offset = 0)
    (hg : g.mode = O_RDONLY ∧ g.tag = 0 ∧ g.pos_tag = 0 ∧ g.end_tag = 0) :
    ∃ f' w', writeChunks fileSys fuel f w chunks
        = .done (chunks.map (fun c => (c.length : Int)), f', w') ∧
      (io61_close fileSys f' w').2.content = data ∧
      ∃ g' w'' dest', io61_read fileSys fuel g
            { content := (io61_close fileSys f' w').2.content, offset := 0, chunks := [] }
            dest data.length
          = .done ((data.length : Int), g', w'', dest') ∧
        slice dest' 0 data.length = data := by
  obtain ⟨hf1, hf2, hf3, hf4⟩ := hf
  obtain ⟨hg1, hg2, hg3, hg4⟩ := hg
  subst hsplit
  have happ : Appending f w :=
    ⟨hf1, by omega, by omega, by unfold bufsize; omega, by rw [hw.1, hw.2]; rfl⟩
  obtain ⟨f', w', heq, ha, hwr⟩ := writeChunks_fileSys fuel chunks f w happ hN hfuel
  have hw0 : written f w = [] := by
    unfold written
    have : (f.pos_tag - f.tag).toNat = 0 := by omega
    rw [this, hw.1]; simp [slice]
  rw [hw0, List.nil_append] at hwr
  obtain ⟨-, hc⟩ := close_appending f' w' ha
  rw [hwr] at hc
  refine ⟨f', w', heq, hc, ?_⟩
  rw [hc]
  have hinv : Inv g := ⟨by omega, by omega, by unfold bufsize; omega⟩
  obtain ⟨g', w'', dest', heq2, -, -, hb⟩ :=
    read_fileSys fuel g { content := chunks.flatten, offset := 0, chunks := [] } dest
      chunks.flatten.length hinv hN hfuel
  rw [pending_of_empty _ _ (by omega)] at heq2 hb
  simp only [List.drop_zero, Nat.min_self, List.take_length] at heq2 hb
  exact ⟨g', w'', dest', heq2, hb⟩

/-- C1 at the ten bytes "0123456789" written as a chunk of 3 and a chunk of 7. -/
theorem write_close_read_round_trip_witness :
    [[48, 49, 50], [51, 52, 53, 54, 55, 56, 57]].flatten = digits ∧
    ∃ f' w', writeChunks fileSys 11 (mkHandle O_WRONLY zeroMem 0 0 0) (fileAt [] 0)
        [[48, 49, 50], [51, 52, 53, 54, 55, 56, 57]] = .done ([3, 7], f', w') ∧
      (io61_close fileSys f' w').2.content = digits ∧
      ∃ g' w'' dest', io61_read fileSys 11 (mkHandle O_RDONLY zeroMem 0 0 0)
            { content := (io61_close fileSys f' w').2.content, offset := 0, chunks := [] }
            zeroMem 10
          = .done (10, g', w'', dest') ∧
        slice dest' 0 10 = digits :=
  ⟨by decide, write_close_read_round_trip digits [[48, 49, 50], [51, 52, 53, 54, 55, 56, 57]]
    (mkHandle O_WRONLY zeroMem 0 0 0) (mkHandle O_RDONLY zeroMem 0 0 0) (fileAt [] 0) zeroMem 11
    (by decide) (by decide) (by decide) ⟨rfl, rfl, rfl, rfl⟩ ⟨rfl, rfl⟩ ⟨rfl, rfl, rfl, rfl⟩⟩

/-- C4 (cursor invariant), evaluated where the code breaks it: a read-mode
handle with empty cache at 0 over a 5-byte file satisfies the invariant;
`io61_seek` to offset 7 returns 0 and leaves start = 0, end = 5, cursor = 7,
so cursor > end; the `io61_read` that follows copies with a negative length. -/
theorem seek_past_data_breaks_cursor_invariant :
    Inv (mkHandle O_RDONLY zeroMem 0 0 0) ∧
    (io61_seek fileSys (mkHandle O_RDONLY zeroMem 0 0 0) (fileAt [1, 2, 3, 4, 5] 0) 7).1 = 0 ∧
    (io61_seek fileSys (mkHandle O_RDONLY zeroMem 0 0 0) (fileAt [1, 2, 3, 4, 5] 0) 7).2.1.tag = 0 ∧
    (io61_seek fileSys (mkHandle O_RDONLY zeroMem 0 0 0) (fileAt [1, 2, 3, 4, 5] 0) 7).2.1.end_tag = 5 ∧
    (io61_seek fileSys (mkHandle O_RDONLY zeroMem 0 0 0) (fileAt [1, 2, 3, 4, 5] 0) 7).2.1.pos_tag = 7 ∧
    ¬ Inv (io61_seek fileSys (mkHandle O_RDONLY zeroMem 0 0 0) (fileAt [1, 2, 3, 4, 5] 0) 7).2.1 ∧
    io61_read fileSys 1
      (io61_seek fileSys (mkHandle O_RDONLY zeroMem 0 0 0) (fileAt [1, 2, 3, 4, 5] 0) 7).2.1
      (io61_seek fileSys (mkHandle O_RDONLY zeroMem 0 0 0) (fileAt [1, 2, 3, 4, 5] 0) 7).2.2
      zeroMem 1 = .undefined :=
  ⟨by decide, by decide, by decide, by decide, by decide, by decide, rfl⟩

/-- C5 (window size): from a state with `tag <= pos_tag <= end_tag` and
`end_tag - tag <= 4096`, with every underlying read returning -1 or a count
in 0..4096 and whatever else the system calls do, `io61_fill`, `io61_flush`,
`io61_seek` to any offset `>= 0`, and `io61_read` and `io61_write` of any
size whenever they return, leave `0 <= end_tag - tag <= 4096`. -/
theorem window_size_invariant {σ : Type} (sys : Sys σ) (f : io61_file) (w : σ)
    (hread : ReadsConform sys) (hinv : Inv f) :
    WindowOk (io61_fill sys f w).2.1 ∧
    (∀ fuel buf sz r, io61_read sys fuel f w buf sz = .done r → WindowOk r.2.1) ∧
    (∀ fuel buf sz r, io61_write sys fuel f w buf sz = .done r → WindowOk r.2.1) ∧
    WindowOk (io61_flush sys f w).2.1 ∧
    (∀ pos : Int, 0 ≤ pos → WindowOk (io61_seek sys f w pos).2.1) :=
  ⟨(fill_inv sys hread f w).1.window,
   fun fuel buf sz r h => (read_loop_inv sys hread fuel f w buf sz 0 r hinv h).window,
   fun fuel buf sz r h => (write_loop_inv sys fuel f w buf sz 0 r hinv h).window,
   (flush_inv sys f w hinv).window,
   fun pos hpos => seek_window sys hread f w pos hpos hinv⟩

theorem fileSys_reads_conform : ReadsConform fileSys := by
  intro w count
  right
  simp only [fileSys]
  have := quota_le w count
  refine ⟨by omega, ?_⟩
  rw [List.length_take]
  omega

/-- C5 at a concrete state: a handle over the 10-byte file with cursor 4 in
the window `[0, 10)`; the read of 8 bytes and the write of 3 bytes return. -/
theorem window_size_invariant_witness :
    Inv (mkHandle O_RDONLY (ofList digits) 0 4 10) ∧
    WindowOk (io61_fill fileSys (mkHandle O_RDONLY (ofList digits) 0 4 10) (fileAt digits 10)).2.1 ∧
    (∃ r, io61_read fileSys 4 (mkHandle O_RDONLY (ofList digits) 0 4 10)
        (fileAt digits 10) zeroMem 8 = .done r ∧ r.1 = 6 ∧ WindowOk r.2.1) ∧
    (∃ r, io61_write fileSys 4 (mkHandle O_RDONLY (ofList digits) 0 4 10)
        (fileAt digits 10) (ofList digits) 3 = .done r ∧ r.1 = 3 ∧ WindowOk r.2.1) ∧
    WindowOk (io61_flush fileSys (mkHandle O_RDONLY (ofList digits) 0 4 10) (fileAt digits 10)).2.1 ∧
    WindowOk (io61_seek fileSys (mkHandle O_RDONLY (ofList digits) 0 4 10)
        (fileAt digits 10) 4099).2.1 :=
  have H := window_size_invariant fileSys (mkHandle O_RDONLY (ofList digits) 0 4 10)
    (fileAt digits 10) fileSys_reads_conform (by decide)
  ⟨by decide, H.1, ⟨_, rfl, by decide, H.2.1 4 zeroMem 8 _ rfl⟩,
    ⟨_, rfl, by decide, H.2.2.1 4 (ofList digits) 3 _ rfl⟩,
    H.2.2.2.1, H.2.2.2.2 4099 (by decide)⟩

/-- C6 (read error reporting), evaluated where the code departs from it: the
first underlying read delivers one byte, the second fails; `io61_read` of 2
bytes has copied that byte into the destination and still returns -1, not the
short count 1. -/
theorem read_error_after_data_returns_failure :
    ∃ f w buf,
      io61_read stubSys 3 (mkHandle O_RDONLY zeroMem 0 0 0)
        (stubWith [(1, [65]), (-1, [])] [] []) zeroMem 2 = .done (-1, f, w, buf) ∧
      buf 0 = 65 ∧ f.pos_tag = 1 ∧ w.log = [Call.read 4096, Call.read 4096] :=
  ⟨_, _, _, rfl, by decide, by decide, by decide⟩

/-- C7 as stated fails: the underlying write of the three pending bytes fails,
`io61_flush` returns -1, and start has moved from 0 to the cursor 3; the retry
passes no bytes to the underlying write. -/
theorem flush_failure_moves_start :
    (io61_flush stubSys (mkHandle O_WRONLY (ofList digits) 0 3 3) (stubWith [] [-1] [])).1 = -1 ∧
    (mkHandle O_WRONLY (ofList digits) 0 3 3).tag = 0 ∧
    (io61_flush stubSys (mkHandle O_WRONLY (ofList digits) 0 3 3) (stubWith [] [-1] [])).2.1.tag = 3 ∧
    (io61_flush stubSys (mkHandle O_WRONLY (ofList digits) 0 3 3) (stubWith [] [-1] [])).2.1.tag
      ≠ (mkHandle O_WRONLY (ofList digits) 0 3 3).tag ∧
    (io61_flush stubSys
      (io61_flush stubSys (mkHandle O_WRONLY (ofList digits) 0 3 3) (stubWith [] [-1] [])).2.1
      (io61_flush stubSys (mkHandle O_WRONLY (ofList digits) 0 3 3) (stubWith [] [-1] [])).2.2).2.2.log
      = [Call.write [48, 49, 50], Call.write []] :=
  ⟨by decide, by decide, by decide, by decide, by decide⟩

/-- C7, amended: on a write-mode handle `io61_flush` issues one underlying
write of the `pos_tag - tag` bytes at the start of the buffer, returns its
result (-1 when it fails) and sets `tag = pos_tag` whatever that result was,
leaving `pos_tag`, `end_tag` and the buffer as they were; so a flush repeated
at once issues a write of 0 bytes. -/
theorem flush_moves_start_whatever_write_returns {σ : Type} (sys : Sys σ) (f : io61_file) (w : σ)
    (hmode : f.mode = O_WRONLY) :
    (io61_flush sys f w).2.2 = (sys.write w f.cbuf (f.pos_tag - f.tag)).2 ∧
    (io61_flush sys f w).1 = toInt32 (sys.write w f.cbuf (f.pos_tag - f.tag)).1 ∧
    ((sys.write w f.cbuf (f.pos_tag - f.tag)).1 = -1 → (io61_flush sys f w).1 = -1) ∧
    (io61_flush sys f w).2.1.tag = f.pos_tag ∧
    (io61_flush sys f w).2.1.pos_tag = f.pos_tag ∧
    (io61_flush sys f w).2.1.end_tag = f.end_tag ∧
    (io61_flush sys f w).2.1.cbuf = f.cbuf ∧
    (io61_flush sys (io61_flush sys f w).2.1 (io61_flush sys f w).2.2).2.2
      = (sys.write (io61_flush sys f w).2.2 f.cbuf 0).2 := by
  have hm : ¬ f.mode = O_RDONLY := by rw [hmode]; decide
  have e : io61_flush sys f w = (toInt32 (sys.write w f.cbuf (f.pos_tag - f.tag)).1,
      { f with tag := f.pos_tag }, (sys.write w f.cbuf (f.pos_tag - f.tag)).2) := by
    unfold io61_flush
    rw [if_neg hm]
  refine ⟨by rw [e], by rw [e], ?_, by rw [e], by rw [e], by rw [e], by rw [e], ?_⟩
  · intro h
    rw [e, h]
    rfl
  · rw [e]
    simp only
    unfold io61_flush
    rw [if_neg hm]
    simp

/-- C7 amended, at the failing write of the counterexample. -/
theorem flush_moves_start_whatever_write_returns_witness :
    (mkHandle O_WRONLY (ofList digits) 0 3 3).mode = O_WRONLY ∧
    (io61_flush stubSys (mkHandle O_WRONLY (ofList digits) 0 3 3) (stubWith [] [-1] [])).2.1.tag = 3 :=
  ⟨rfl, (flush_moves_start_whatever_write_returns stubSys
    (mkHandle O_WRONLY (ofList digits) 0 3 3) (stubWith [] [-1] []) rfl).2.2.2.1⟩

/-- C8 (write-mode seek postcondition), evaluated where the code departs from
it, in two ways. Outside the window, at an unaligned target: from an empty
cache at 0, `io61_seek` to 5 succeeds, moves the descriptor to 5 and leaves
cursor = end = 5 but start = 0, not 5. Inside the window: with ten bytes
buffered, `io61_seek` to 5 returns 0 with start = 0, cursor = 5, end = 10 and
has issued no write and no lseek. -/
theorem write_seek_leaves_start_behind :
    ((io61_seek fileSys (mkHandle O_WRONLY zeroMem 0 0 0) (fileAt [] 0) 5).1 = 0 ∧
     (io61_seek fileSys (mkHandle O_WRONLY zeroMem 0 0 0) (fileAt [] 0) 5).2.2.offset = 5 ∧
     (io61_seek fileSys (mkHandle O_WRONLY zeroMem 0 0 0) (fileAt [] 0) 5).2.1.pos_tag = 5 ∧
     (io61_seek fileSys (mkHandle O_WRONLY zeroMem 0 0 0) (fileAt [] 0) 5).2.1.end_tag = 5 ∧
     (io61_seek fileSys (mkHandle O_WRONLY zeroMem 0 0 0) (fileAt [] 0) 5).2.1.tag = 0 ∧
     (io61_seek fileSys (mkHandle O_WRONLY zeroMem 0 0 0) (fileAt [] 0) 5).2.1.tag ≠ 5) ∧
    ((io61_seek stubSys (mkHandle O_WRONLY (ofList digits) 0 10 10) (stubWith [] [] []) 5).1 = 0 ∧
     (io61_seek stubSys (mkHandle O_WRONLY (ofList digits) 0 10 10) (stubWith [] [] []) 5).2.2.log = [] ∧
     (io61_seek stubSys (mkHandle O_WRONLY (ofList digits) 0 10 10) (stubWith [] [] []) 5).2.1.tag = 0 ∧
     (io61_seek stubSys (mkHandle O_WRONLY (ofList digits) 0 10 10) (stubWith [] [] []) 5).2.1.end_tag = 10 ∧
     (io61_seek stubSys (mkHandle O_WRONLY (ofList digits) 0 10 10) (stubWith [] [] []) 5).2.1.tag ≠ 5 ∧
     (io61_seek stubSys (mkHandle O_WRONLY (ofList digits) 0 10 10) (stubWith [] [] []) 5).2.1.end_tag ≠ 5) :=
  ⟨⟨by decide, by decide, by decide, by decide, by decide, by decide⟩,
   ⟨by decide, by decide, by decide, by decide, by decide, by decide⟩⟩

/-- The write-mode slow path of `io61_seek`, for a target `pos >= 0` outside
the window `[tag, end_tag)`: if the flush fails `io61_seek` returns -1; if the
flush and the `lseek` to `pos` succeed, `io61_seek` returns 0, the descriptor
is the one `lseek` left at `pos`, `pos_tag = end_tag = pos`, and `tag = pos`
when `pos` is a multiple of 4096. -/
theorem write_seek_postcondition {σ : Type} (sys : Sys σ) (f : io61_file) (w : σ) (pos : Int)
    (hmode : f.mode = O_WRONLY) (hpos : 0 ≤ pos) (hout : ¬ (f.tag ≤ pos ∧ pos < f.end_tag)) :
    ((io61_flush sys f w).1 = -1 → (io61_seek sys f w pos).1 = -1) ∧
    ((io61_flush sys f w).1 ≠ -1 → (sys.lseek (io61_flush sys f w).2.2 pos).1 = pos →
      (io61_seek sys f w pos).1 = 0 ∧
      (io61_seek sys f w pos).2.2 = (sys.lseek (io61_flush sys f w).2.2 pos).2 ∧
      (io61_seek sys f w pos).2.1.pos_tag = pos ∧
      (io61_seek sys f w pos).2.1.end_tag = pos ∧
      (pos % 4096 = 0 → (io61_seek sys f w pos).2.1.tag = pos)) := by
  have hm : ¬ f.mode = O_RDONLY := by rw [hmode]; decide
  have hal : Int.tmod pos 4096 = pos % 4096 := tmod_4096 pos hpos
  constructor
  · intro hfl
    unfold io61_seek
    rw [if_neg hout, if_neg hm, if_pos hmode]
    simp only
    rw [if_pos hfl]
  · intro hfl hls
    unfold io61_seek
    rw [if_neg hout, if_neg hm, if_pos hmode]
    simp only
    rw [if_neg hfl, if_neg (by simpa using hls)]
    refine ⟨rfl, rfl, rfl, rfl, ?_⟩
    intro hdiv
    simp only [hal, hdiv]
    omega

/-- C9 (the seek fast path is read-only), evaluated where the code departs
from it: on a write-mode handle with ten bytes buffered in `[0, 10)`,
`io61_seek` to 5 returns 0 having only set the cursor to 5: the stub has
recorded no call, and start and end are as before. The pending bytes are not
flushed then or later: after `io61_write` of "0123456789" to an empty file,
`io61_seek` to 5 and `io61_close`, each reporting success, the file holds
"01234" only. -/
theorem write_seek_in_window_issues_no_calls :
    (mkHandle O_WRONLY (ofList digits) 0 10 10).mode = O_WRONLY ∧
    (io61_seek stubSys (mkHandle O_WRONLY (ofList digits) 0 10 10) (stubWith [] [] []) 5).1 = 0 ∧
    (io61_seek stubSys (mkHandle O_WRONLY (ofList digits) 0 10 10) (stubWith [] [] []) 5).2.2.log = [] ∧
    (io61_seek stubSys (mkHandle O_WRONLY (ofList digits) 0 10 10) (stubWith [] [] []) 5).2.1.pos_tag = 5 ∧
    (io61_seek stubSys (mkHandle O_WRONLY (ofList digits) 0 10 10) (stubWith [] [] []) 5).2.1.tag = 0 ∧
    (io61_seek stubSys (mkHandle O_WRONLY (ofList digits) 0 10 10) (stubWith [] [] []) 5).2.1.end_tag = 10 ∧
    (∃ f1 w1, io61_write fileSys 2 (mkHandle O_WRONLY zeroMem 0 0 0) (fileAt [] 0) (ofList digits) 10
        = .done (10, f1, w1, ofList digits) ∧
      (io61_seek fileSys f1 w1 5).1 = 0 ∧
      (io61_seek fileSys f1 w1 5).2.2.content = [] ∧
      (io61_close fileSys (io61_seek fileSys f1 w1 5).2.1 (io61_seek fileSys f1 w1 5).2.2).1 = 0 ∧
      (io61_close fileSys (io61_seek fileSys f1 w1 5).2.1 (io61_seek fileSys f1 w1 5).2.2).2.content
        = [48, 49, 50, 51, 52]) :=
  ⟨rfl, by decide, by decide, by decide, by decide, by decide,
    ⟨_, _, rfl, by decide, by decide, by decide, by decide⟩⟩

/-- Which path `io61_seek` takes on a write-mode handle: the window test does
not look at the mode, so a target inside `[tag, end_tag)` only sets `pos_tag`
to the target, returns 0 and leaves the descriptor untouched; a target outside
it takes the slow path: the pending bytes `[tag, pos_tag)` are flushed with
one underlying write and, unless that flush fails, the descriptor is
repositioned with `lseek` to the target (on the stub: exactly these two calls
are recorded). -/
theorem write_seek_fast_path_iff_in_window {σ : Type} (sys : Sys σ) (f : io61_file) (w : σ)
    (pos : Int) (hmode : f.mode = O_WRONLY) :
    (f.tag ≤ pos ∧ pos < f.end_tag →
      io61_seek sys f w pos = (0, { f with pos_tag := pos }, w)) ∧
    (¬ (f.tag ≤ pos ∧ pos < f.end_tag) →
      (io61_seek sys f w pos).2.2 =
        if toInt32 (sys.write w f.cbuf (f.pos_tag - f.tag)).1 = -1
        then (sys.write w f.cbuf (f.pos_tag - f.tag)).2
        else (sys.lseek (sys.write w f.cbuf (f.pos_tag - f.tag)).2 pos).2) ∧
    (∀ s : Stub, ¬ (f.tag ≤ pos ∧ pos < f.end_tag) →
      toInt32 (s.writes.headD (f.pos_tag - f.tag)) ≠ -1 →
      (io61_seek stubSys f s pos).2.2.log
        = s.log ++ [Call.write (slice f.cbuf 0 (f.pos_tag - f.tag).toNat), Call.lseek pos]) := by
  have hm : ¬ f.mode = O_RDONLY := by rw [hmode]; decide
  have hslow : ∀ {τ : Type} (sy : Sys τ) (v : τ), ¬ (f.tag ≤ pos ∧ pos < f.end_tag) →
      (io61_seek sy f v pos).2.2 =
        if toInt32 (sy.write v f.cbuf (f.pos_tag - f.tag)).1 = -1
        then (sy.write v f.cbuf (f.pos_tag - f.tag)).2
        else (sy.lseek (sy.write v f.cbuf (f.pos_tag - f.tag)).2 pos).2 := by
    intro τ sy v hout
    unfold io61_seek io61_flush
    rw [if_neg hout, if_neg hm, if_pos hmode, if_neg hm]
    simp only
    split
    · rfl
    · split <;> rfl
  refine ⟨?_, hslow sys w, ?_⟩
  · intro hin
    unfold io61_seek
    rw [if_pos hin]
  · intro s hout hw
    rw [hslow stubSys s hout]
    simp only [stubSys] at hw ⊢
    rw [if_neg hw]
    simp

/-- C10 as stated fails: the flush of the three pending bytes fails (-1), the
underlying close succeeds, and `io61_close` returns 0, not the flush's status. -/
theorem close_drops_flush_failure :
    (io61_flush stubSys (mkHandle O_WRONLY (ofList digits) 0 3 3) (stubWith [] [-1] [0])).1 = -1 ∧
    (io61_close stubSys (mkHandle O_WRONLY (ofList digits) 0 3 3) (stubWith [] [-1] [0])).1 = 0 ∧
    (io61_close stubSys (mkHandle O_WRONLY (ofList digits) 0 3 3) (stubWith [] [-1] [0])).1
      ≠ (io61_flush stubSys (mkHandle O_WRONLY (ofList digits) 0 3 3) (stubWith [] [-1] [0])).1 ∧
    (io61_close stubSys (mkHandle O_WRONLY (ofList digits) 0 3 3) (stubWith [] [-1] [0])).2.log
      = [Call.write [48, 49, 50], Call.close] :=
  ⟨by decide, by decide, by decide, by decide⟩

/-- C10, amended: `io61_close` always runs the flush and then the underlying
close, on the descriptor as the flush left it, and returns the status of the
underlying close whatever the flush returned; on the stub, a handle that is
not read-only records exactly the flush's write and then the close. -/
theorem close_returns_status_of_close {σ : Type} (sys : Sys σ) (f : io61_file) (w : σ) :
    io61_close sys f w = sys.close (io61_flush sys f w).2.2 ∧
    (∀ s : Stub, (io61_close stubSys f s).1 = s.closes.headD 0) ∧
    (∀ s : Stub, f.mode ≠ O_RDONLY →
      (io61_close stubSys f s).2.log
        = s.log ++ [Call.write (slice f.cbuf 0 (f.pos_tag - f.tag).toNat), Call.close]) := by
  refine ⟨rfl, ?_, ?_⟩
  · intro s
    unfold io61_close io61_flush
    split <;> rfl
  · intro s hm
    unfold io61_close io61_flush
    rw [if_neg hm]
    simp [stubSys]

/-- C10 amended, at the failing flush of the counterexample, with the
underlying close returning 7. -/
theorem close_returns_status_of_close_witness :
    (mkHandle O_WRONLY (ofList digits) 0 3 3).mode ≠ O_RDONLY ∧
    (io61_close stubSys (mkHandle O_WRONLY (ofList digits) 0 3 3) (stubWith [] [-1] [7])).1 = 7 ∧
    (io61_close stubSys (mkHandle O_WRONLY (ofList digits) 0 3 3) (stubWith [] [-1] [7])).2.log
      = [Call.write [48, 49, 50], Call.close] :=
  have H := close_returns_status_of_close stubSys (mkHandle O_WRONLY (ofList digits) 0 3 3)
    (stubWith [] [-1] [7])
  ⟨by decide, H.2.1 (stubWith [] [-1] [7]), H.2.2 (stubWith [] [-1] [7]) (by decide)⟩

/-! ## Creation, cache hits, repeated flushes -/

/-- C11 (creation), evaluated where the code departs from it: `io61_fdopen`
assigns the descriptor and the mode and nothing else, so on storage that
holds 7, 9, 8 in the marker fields the new handle has start = 7, cursor = 9,
end = 8, not 0. -/
theorem fdopen_leaves_markers_unset :
    (io61_fdopen (mkHandle O_WRONLY zeroMem 7 9 8) 5 O_RDONLY).map
        (fun h => (h.fd, h.mode, h.tag, h.pos_tag, h.end_tag)) = some (5, O_RDONLY, 7, 9, 8) ∧
    (io61_fdopen (mkHandle O_WRONLY zeroMem 7 9 8) 5 O_RDONLY).map (fun h => h.tag) ≠ some 0 :=
  ⟨by decide, by decide⟩

theorem seekEach_in_window {σ : Type} (sys : Sys σ) (w : σ) : ∀ (targets : List Int) (f : io61_file),
    (∀ t ∈ targets, f.tag ≤ t ∧ t < f.end_tag) →
    seekEach sys f w targets
      = (targets.map (fun _ => 0), { f with pos_tag := targets.foldl (fun _ t => t) f.pos_tag }, w) := by
  intro targets
  induction targets with
  | nil => intro f _; rfl
  | cons t ts ih =>
    intro f h
    have ht := h t (List.mem_cons_self t ts)
    have hs : io61_seek sys f w t = (0, { f with pos_tag := t }, w) := by
      unfold io61_seek
      rw [if_pos ht]
    unfold seekEach
    rw [hs]
    simp only
    rw [ih { f with pos_tag := t } (fun u hu => h u (List.mem_cons_of_mem t hu))]
    simp

/-- C12 (cache-hit fast path): for a handle (read mode or not) and a target
inside `[tag, end_tag)`, `io61_seek` returns 0 with the descriptor state as it
was (on the stub: nothing recorded), `pos_tag` set to the target and `tag`,
`end_tag` and the buffer untouched; and seeks to any list of targets that all
lie in the window return 0 each and leave the descriptor state as it was. -/
theorem seek_cache_hit_does_no_io {σ : Type} (sys : Sys σ) (f : io61_file) (w : σ) (pos : Int)
    (hmode : f.mode = O_RDONLY) (hin : f.tag ≤ pos ∧ pos < f.end_tag) :
    io61_seek sys f w pos = (0, { f with pos_tag := pos }, w) ∧
    (∀ s : Stub, (io61_seek stubSys f s pos).2.2.log = s.log) ∧
    (∀ targets : List Int, (∀ t ∈ targets, f.tag ≤ t ∧ t < f.end_tag) →
      (seekEach sys f w targets).1 = targets.map (fun _ => 0) ∧
      (seekEach sys f w targets).2.2 = w ∧
      (seekEach sys f w targets).2.1.mode = O_RDONLY ∧
      (seekEach sys f w targets).2.1.tag = f.tag ∧
      (seekEach sys f w targets).2.1.end_tag = f.end_tag ∧
      (seekEach sys f w targets).2.1.cbuf = f.cbuf ∧
      (∀ s : Stub, (seekEach stubSys f s targets).2.2.log = s.log)) := by
  have hs : ∀ {τ : Type} (sy : Sys τ) (v : τ),
      io61_seek sy f v pos = (0, { f with pos_tag := pos }, v) := by
    intro τ sy v
    unfold io61_seek
    rw [if_pos hin]
  refine ⟨hs sys w, fun s => by rw [hs stubSys s], ?_⟩
  intro targets ht
  rw [seekEach_in_window sys w targets f ht]
  refine ⟨rfl, rfl, hmode, rfl, rfl, rfl, ?_⟩
  intro s
  rw [seekEach_in_window stubSys s targets f ht]

/-- C12 on the 10-byte file cached whole: seeks to 2, 9 and 0 record no call
on the stub and leave the cursor at 0. -/
theorem seek_cache_hit_does_no_io_witness :
    ((mkHandle O_RDONLY (ofList digits) 0 4 10).tag ≤ 2 ∧
      (2 : Int) < (mkHandle O_RDONLY (ofList digits) 0 4 10).end_tag) ∧
    (io61_seek stubSys (mkHandle O_RDONLY (ofList digits) 0 4 10) (stubWith [] [] []) 2).1 = 0 ∧
    (io61_seek stubSys (mkHandle O_RDONLY (ofList digits) 0 4 10) (stubWith [] [] []) 2).2.1.pos_tag = 2 ∧
    (seekEach stubSys (mkHandle O_RDONLY (ofList digits) 0 4 10) (stubWith [] [] []) [2, 9, 0]).1
      = [0, 0, 0] ∧
    (seekEach stubSys (mkHandle O_RDONLY (ofList digits) 0 4 10) (stubWith [] [] [])
      [2, 9, 0]).2.2.log = [] :=
  have H := seek_cache_hit_does_no_io stubSys (mkHandle O_RDONLY (ofList digits) 0 4 10)
    (stubWith [] [] []) 2 rfl (by decide)
  ⟨by decide, congrArg (fun r => r.1) H.1, congrArg (fun r => r.2.1.pos_tag) H.1,
    (H.2.2 [2, 9, 0] (by decide)).1, (H.2.2 [2, 9, 0] (by decide)).2.2.2.2.2.2 (stubWith [] [] [])⟩

/-- C13 as stated fails: on a write-mode handle with three pending bytes the
first `io61_flush` succeeds (3), and the second, called at once, issues an
underlying write too, of no bytes: the stub has recorded two writes. -/
theorem second_flush_still_calls_write :
    (io61_flush stubSys (mkHandle O_WRONLY (ofList digits) 0 3 3) (stubWith [] [] [])).1 = 3 ∧
    (io61_flush stubSys (mkHandle O_WRONLY (ofList digits) 0 3 3) (stubWith [] [] [])).2.2.log
      = [Call.write [48, 49, 50]] ∧
    (io61_flush stubSys
      (io61_flush stubSys (mkHandle O_WRONLY (ofList digits) 0 3 3) (stubWith [] [] [])).2.1
      (io61_flush stubSys (mkHandle O_WRONLY (ofList digits) 0 3 3) (stubWith [] [] [])).2.2).2.2.log
      = [Call.write [48, 49, 50], Call.write []] ∧
    (io61_flush stubSys
      (io61_flush stubSys (mkHandle O_WRONLY (ofList digits) 0 3 3) (stubWith [] [] [])).2.1
      (io61_flush stubSys (mkHandle O_WRONLY (ofList digits) 0 3 3) (stubWith [] [] [])).2.2).2.2.log
      ≠ (io61_flush stubSys (mkHandle O_WRONLY (ofList digits) 0 3 3) (stubWith [] [] [])).2.2.log :=
  ⟨by decide, by decide, by decide, by decide⟩

/-- C13, amended: on a write-mode handle, an `io61_flush` that follows an
`io61_flush` at once issues one underlying write, of 0 bytes (on the stub: one
more write, of no bytes, is recorded), returns that write's result and leaves
`tag`, `pos_tag` and `end_tag` as the first flush left them; on a regular
file it returns 0 and leaves handle, file contents and offset unchanged. -/
theorem second_flush_writes_no_bytes {σ : Type} (sys : Sys σ) (f : io61_file) (w : σ)
    (hmode : f.mode = O_WRONLY) :
    (io61_flush sys (io61_flush sys f w).2.1 (io61_flush sys f w).2.2).2.2
      = (sys.write (io61_flush sys f w).2.2 f.cbuf 0).2 ∧
    (io61_flush sys (io61_flush sys f w).2.1 (io61_flush sys f w).2.2).1
      = toInt32 (sys.write (io61_flush sys f w).2.2 f.cbuf 0).1 ∧
    (io61_flush sys (io61_flush sys f w).2.1 (io61_flush sys f w).2.2).2.1.tag
      = (io61_flush sys f w).2.1.tag ∧
    (io61_flush sys (io61_flush sys f w).2.1 (io61_flush sys f w).2.2).2.1.pos_tag
      = (io61_flush sys f w).2.1.pos_tag ∧
    (io61_flush sys (io61_flush sys f w).2.1 (io61_flush sys f w).2.2).2.1.end_tag
      = (io61_flush sys f w).2.1.end_tag ∧
    (∀ s : Stub,
      (io61_flush stubSys (io61_flush stubSys f s).2.1 (io61_flush stubSys f s).2.2).2.2.log
        = (io61_flush stubSys f s).2.2.log ++ [Call.write []]) ∧
    (∀ d : FileDesc,
      (io61_flush fileSys (io61_flush fileSys f d).2.1 (io61_flush fileSys f d).2.2).1 = 0 ∧
      (io61_flush fileSys (io61_flush fileSys f d).2.1 (io61_flush fileSys f d).2.2).2.2
        = (io61_flush fileSys f d).2.2) := by
  have hm : ¬ f.mode = O_RDONLY := by rw [hmode]; decide
  have e : ∀ {τ : Type} (sy : Sys τ) (v : τ), io61_flush sy f v
      = (toInt32 (sy.write v f.cbuf (f.pos_tag - f.tag)).1,
        { f with tag := f.pos_tag }, (sy.write v f.cbuf (f.pos_tag - f.tag)).2) := by
    intro τ sy v
    unfold io61_flush
    rw [if_neg hm]
  have e2 : ∀ {τ : Type} (sy : Sys τ) (v : τ), io61_flush sy { f with tag := f.pos_tag } v
      = (toInt32 (sy.write v f.cbuf 0).1, { f with tag := f.pos_tag }, (sy.write v f.cbuf 0).2) := by
    intro τ sy v
    unfold io61_flush
    rw [if_neg hm]
    simp
  refine ⟨by rw [e, e2], by rw [e, e2], by rw [e, e2], by rw [e, e2], by rw [e, e2], ?_, ?_⟩
  · intro s
    rw [e, e2]
    simp [stubSys, slice]
  · intro d
    rw [e, e2]
    simp only [fileSys]
    rw [if_neg (by omega)]
    simp [slice, overwrite, toInt32]

/-- C13 amended, at the three pending bytes of the counterexample. -/
theorem second_flush_writes_no_bytes_witness :
    (mkHandle O_WRONLY (ofList digits) 0 3 3).mode = O_WRONLY ∧
    (io61_flush stubSys
      (io61_flush stubSys (mkHandle O_WRONLY (ofList digits) 0 3 3) (stubWith [] [] [])).2.1
      (io61_flush stubSys (mkHandle O_WRONLY (ofList digits) 0 3 3) (stubWith [] [] [])).2.2).2.2.log
      = (io61_flush stubSys (mkHandle O_WRONLY (ofList digits) 0 3 3) (stubWith [] [] [])).2.2.log
        ++ [Call.write []] :=
  ⟨rfl, (second_flush_writes_no_bytes stubSys (mkHandle O_WRONLY (ofList digits) 0 3 3)
    (stubWith [] [] []) rfl).2.2.2.2.2.1 (stubWith [] [] [])⟩

/-! ## Writes at the buffer boundary, read-mode seeks, fills -/

theorem write_copy_eq {σ : Type} (f : io61_file) (w : σ) (buf : Mem) (sz pos : Nat)
    (hinv : Inv f) (hpos : pos < sz) (hsz : sz < 2147483648) :
    io61_write_copy f w buf sz pos =
      .next ({ f with
          cbuf := memcpy f.cbuf (f.pos_tag - f.tag).toNat buf pos
            (min (4096 + f.tag - f.end_tag).toNat (sz - pos)),
          pos_tag := f.pos_tag + (min (4096 + f.tag - f.end_tag).toNat (sz - pos) : Nat),
          end_tag := f.end_tag + (min (4096 + f.tag - f.end_tag).toNat (sz - pos) : Nat) },
        w, buf, pos + min (4096 + f.tag - f.end_tag).toNat (sz - pos)) := by
  obtain ⟨h1, h2, h3⟩ := hinv
  unfold bufsize at h3
  have e1 : toInt32 (bufsize + f.tag - f.end_tag) = 4096 + f.tag - f.end_tag := by
    unfold bufsize; exact toInt32_eq_self (by omega) (by omega)
  have e2 : toInt32 ((sz : Int) - pos) = (sz : Int) - pos :=
    toInt32_eq_self (by omega) (by omega)
  have e3 : min (4096 + f.tag - f.end_tag) ((sz : Int) - pos)
      = ((min (4096 + f.tag - f.end_tag).toNat (sz - pos) : Nat) : Int) := by omega
  unfold io61_write_copy
  simp only [e1, e2, e3]
  generalize min (4096 + f.tag - f.end_tag).toNat (sz - pos) = c at e3
  rw [if_neg (by unfold bufsize; omega)]
  simp only [Int.toNat_ofNat]

theorem write_loop_at_end {σ : Type} (sys : Sys σ) (fuel : Nat) (f : io61_file) (w : σ)
    (buf : Mem) (sz : Nat) :
    io61_write_loop sys (fuel + 1) f w buf sz sz = .done ((sz : Int), f, w, buf) := by
  have hiter : io61_write_iter sys f w buf sz sz = .ret ((sz : Int), f, w, buf) := by
    unfold io61_write_iter
    rw [if_neg (by omega)]
  unfold io61_write_loop
  rw [hiter]

/-- A write that fits in the room left in the buffer is one copy and no system call. -/
theorem write_within_room {σ : Type} (sys : Sys σ) (f : io61_file) (w : σ) (buf : Mem)
    (sz fuel : Nat) (h1 : f.tag ≤ f.pos_tag) (h2 : f.pos_tag ≤ f.end_tag)
    (hroom : f.end_tag - f.tag + sz ≤ 4096) (hsz : 1 ≤ sz) (hfuel : 2 ≤ fuel) :
    io61_write sys fuel f w buf sz =
      .done ((sz : Int),
        { f with cbuf := memcpy f.cbuf (f.pos_tag - f.tag).toNat buf 0 sz,
                 pos_tag := f.pos_tag + sz, end_tag := f.end_tag + sz }, w, buf) := by
  obtain ⟨n, rfl⟩ : ∃ n, fuel = n + 2 := ⟨fuel - 2, by omega⟩
  have hinv : Inv f := ⟨h1, h2, by unfold bufsize; omega⟩
  have hc : min (4096 + f.tag - f.end_tag).toNat (sz - 0) = sz := by omega
  have hiter : io61_write_iter sys f w buf sz 0 =
      .next ({ f with cbuf := memcpy f.cbuf (f.pos_tag - f.tag).toNat buf 0 sz,
                      pos_tag := f.pos_tag + sz, end_tag := f.end_tag + sz }, w, buf, sz) := by
    unfold io61_write_iter
    rw [if_pos (by omega), if_neg (by unfold bufsize; omega),
      write_copy_eq f w buf sz 0 hinv (by omega) (by omega), hc, Nat.zero_add]
  unfold io61_write io61_write_loop
  rw [hiter]
  exact write_loop_at_end sys n _ w buf sz

/-- A write of at most `bufsize` bytes into a full buffer is one flush, of the
whole buffer, then one copy. -/
theorem write_on_full_buffer {σ : Type} (sys : Sys σ) (f : io61_file) (w : σ) (buf : Mem)
    (sz fuel : Nat) (hmode : f.mode = O_WRONLY) (hcur : f.pos_tag = f.end_tag)
    (hfull : f.end_tag = f.tag + 4096) (hsz : 1 ≤ sz) (hsz2 : sz ≤ 4096) (hfuel : 2 ≤ fuel)
    (hok : toInt32 (sys.write w f.cbuf 4096).1 ≠ -1) :
    io61_write sys fuel f w buf sz =
      .done ((sz : Int),
        { f with cbuf := memcpy f.cbuf 0 buf 0 sz, tag := f.end_tag,
                 pos_tag := f.end_tag + sz, end_tag := f.end_tag + sz },
        (sys.write w f.cbuf 4096).2, buf) := by
  obtain ⟨n, rfl⟩ : ∃ n, fuel = n + 2 := ⟨fuel - 2, by omega⟩
  have hm : ¬ f.mode = O_RDONLY := by rw [hmode]; decide
  have hcount : f.pos_tag - f.tag = 4096 := by omega
  have hfl : io61_flush sys f w = (toInt32 (sys.write w f.cbuf 4096).1,
      { f with tag := f.pos_tag }, (sys.write w f.cbuf 4096).2) := by
    unfold io61_flush
    rw [if_neg hm, hcount]
  have hinv : Inv { f with tag := f.pos_tag } :=
    ⟨le_refl _, by simp only; omega, by unfold bufsize; simp only; omega⟩
  have hc : min (4096 + f.end_tag - f.end_tag).toNat (sz - 0) = sz := by omega
  have h0 : (f.end_tag - f.end_tag).toNat = 0 := by omega
  have hiter : io61_write_iter sys f w buf sz 0 =
      .next ({ f with cbuf := memcpy f.cbuf 0 buf 0 sz, tag := f.end_tag,
                      pos_tag := f.end_tag + sz, end_tag := f.end_tag + sz },
        (sys.write w f.cbuf 4096).2, buf, sz) := by
    unfold io61_write_iter
    rw [if_pos (by omega), if_pos (by unfold bufsize; omega), hfl]
    simp only
    rw [if_neg hok, write_copy_eq _ _ buf sz 0 hinv (by omega) (by omega)]
    simp only [hcur, hc, h0, Nat.zero_add]
  unfold io61_write io61_write_loop
  rw [hiter]
  exact write_loop_at_end sys n _ _ buf sz

/-- A write into a full buffer whose flush fails returns -1 after that one
underlying write, with nothing copied. -/
theorem write_on_full_buffer_failing {σ : Type} (sys : Sys σ) (f : io61_file) (w : σ) (buf : Mem)
    (sz fuel : Nat) (hmode : f.mode = O_WRONLY) (hcur : f.pos_tag = f.end_tag)
    (hfull : f.end_tag = f.tag + 4096) (hsz : 1 ≤ sz) (hfuel : 1 ≤ fuel)
    (hfail : toInt32 (sys.write w f.cbuf 4096).1 = -1) :
    io61_write sys fuel f w buf sz =
      .done (-1, { f with tag := f.pos_tag }, (sys.write w f.cbuf 4096).2, buf) := by
  obtain ⟨n, rfl⟩ : ∃ n, fuel = n + 1 := ⟨fuel - 1, by omega⟩
  have hm : ¬ f.mode = O_RDONLY := by rw [hmode]; decide
  have hcount : f.pos_tag - f.tag = 4096 := by omega
  have hfl : io61_flush sys f w = (toInt32 (sys.write w f.cbuf 4096).1,
      { f with tag := f.pos_tag }, (sys.write w f.cbuf 4096).2) := by
    unfold io61_flush
    rw [if_neg hm, hcount]
  have hiter : io61_write_iter sys f w buf sz 0 =
      .ret (-1, { f with tag := f.pos_tag }, (sys.write w f.cbuf 4096).2, buf) := by
    unfold io61_write_iter
    rw [if_pos (by omega), if_pos (by unfold bufsize; omega), hfl]
    simp only
    rw [if_pos hfail]
  unfold io61_write io61_write_loop
  rw [hiter]

/-- C14 (boundary arithmetic). A write-mode handle `g` with `pos_tag = end_tag`
takes an `io61_write` of `sz0` bytes that fits in the room left (up to filling
the buffer exactly) without any system call (on the stub: nothing recorded),
and ends with `end_tag - tag` grown by `sz0`. On a write-mode handle `f`
whose buffer is full (`pos_tag = end_tag = tag + 4096`), the next `io61_write`
of `1 <= sz <= 4096` bytes issues exactly one underlying write, of the 4096
bytes the buffer held before any new byte was copied (on the stub: that one
write is recorded), and leaves `tag` at the old `end_tag`; when that write
does not fail it returns `sz` with `pos_tag = end_tag = tag + sz` and
`cbuf[0, sz)` holding the new bytes, and when it fails it returns -1. -/
theorem write_flushes_once_at_boundary {σ : Type} (sys : Sys σ) (g f : io61_file) (w : σ)
    (buf0 buf : Mem) (sz0 sz fuel : Nat)
    (hg : g.mode = O_WRONLY ∧ g.tag ≤ g.pos_tag ∧ g.pos_tag = g.end_tag)
    (hroom : g.end_tag - g.tag + sz0 ≤ 4096) (hsz0 : 1 ≤ sz0)
    (hf : f.mode = O_WRONLY ∧ f.pos_tag = f.end_tag ∧ f.end_tag = f.tag + 4096)
    (hsz : 1 ≤ sz ∧ sz ≤ 4096) (hfuel : 2 ≤ fuel) :
    (∃ g', io61_write sys fuel g w buf0 sz0 = .done ((sz0 : Int), g', w, buf0) ∧
      g'.mode = O_WRONLY ∧ g'.tag = g.tag ∧ g'.pos_tag = g'.end_tag ∧
      g'.end_tag - g'.tag = g.end_tag - g.tag + sz0) ∧
    (∀ s : Stub, ∃ r, io61_write stubSys fuel g s buf0 sz0 = .done r ∧ r.2.2.1.log = s.log) ∧
    (∃ r, io61_write sys fuel f w buf sz = .done r ∧
      r.2.2.1 = (sys.write w f.cbuf 4096).2 ∧ r.2.1.tag = f.end_tag ∧
      (toInt32 (sys.write w f.cbuf 4096).1 ≠ -1 →
        r.1 = sz ∧ r.2.1.pos_tag = r.2.1.tag + sz ∧ r.2.1.end_tag = r.2.1.tag + sz ∧
        slice r.2.1.cbuf 0 sz = slice buf 0 sz) ∧
      (toInt32 (sys.write w f.cbuf 4096).1 = -1 → r.1 = -1)) ∧
    (∀ s : Stub, ∃ r, io61_write stubSys fuel f s buf sz = .done r ∧
        r.2.2.1.log = s.log ++ [Call.write (slice f.cbuf 0 4096)]) := by
  obtain ⟨hg1, hg2, hg3⟩ := hg
  obtain ⟨hf1, hf2, hf3⟩ := hf
  have hfull : ∀ {τ : Type} (sy : Sys τ) (v : τ),
      ∃ r, io61_write sy fuel f v buf sz = .done r ∧
        r.2.2.1 = (sy.write v f.cbuf 4096).2 ∧ r.2.1.tag = f.end_tag ∧
        (toInt32 (sy.write v f.cbuf 4096).1 ≠ -1 →
          r.1 = sz ∧ r.2.1.pos_tag = r.2.1.tag + sz ∧ r.2.1.end_tag = r.2.1.tag + sz ∧
          slice r.2.1.cbuf 0 sz = slice buf 0 sz) ∧
        (toInt32 (sy.write v f.cbuf 4096).1 = -1 → r.1 = -1) := by
    intro τ sy v
    by_cases hok : toInt32 (sy.write v f.cbuf 4096).1 = -1
    · exact ⟨_, write_on_full_buffer_failing sy f v buf sz fuel hf1 hf2 hf3 hsz.1 (by omega) hok,
        rfl, hf2, fun h => absurd hok h, fun _ => rfl⟩
    · refine ⟨_, write_on_full_buffer sy f v buf sz fuel hf1 hf2 hf3 hsz.1 hsz.2 hfuel hok,
        rfl, rfl, fun _ => ⟨rfl, rfl, rfl, ?_⟩, fun h => absurd h hok⟩
      apply slice_congr
      intro i hi
      simp only [memcpy]
      rw [if_pos (by omega)]
      simp
  refine ⟨⟨_, write_within_room sys g w buf0 sz0 fuel hg2 (by omega) hroom hsz0 hfuel,
      hg1, rfl, ?_, ?_⟩, ?_, hfull sys w, ?_⟩
  · simp only; omega
  · simp only; omega
  · intro s
    exact ⟨_, write_within_room stubSys g s buf0 sz0 fuel hg2 (by omega) hroom hsz0 hfuel, rfl⟩
  · intro s
    obtain ⟨r, hr, hw, -⟩ := hfull stubSys s
    exact ⟨r, hr, by rw [hw]; rfl⟩

/-- C14 on the stub: from an empty cache at 0 the two halves of 2048 bytes
record no call and fill the buffer; the next write, of 3 bytes, records one
write of the 4096 buffered bytes. -/
theorem write_flushes_once_at_boundary_witness :
    ((mkHandle O_WRONLY zeroMem 0 4096 4096).mode = O_WRONLY ∧
      (mkHandle O_WRONLY zeroMem 0 4096 4096).pos_tag = (mkHandle O_WRONLY zeroMem 0 4096 4096).end_tag ∧
      (mkHandle O_WRONLY zeroMem 0 4096 4096).end_tag = (mkHandle O_WRONLY zeroMem 0 4096 4096).tag + 4096) ∧
    (∃ r, io61_write stubSys 2 (mkHandle O_WRONLY zeroMem 0 0 0) (stubWith [] [] [])
        (ofList digits) 2048 = .done r ∧ r.2.2.1.log = []) ∧
    (∃ g', io61_write stubSys 2 (mkHandle O_WRONLY zeroMem 0 2048 2048) (stubWith [] [] [])
        (ofList digits) 2048 = .done (2048, g', stubWith [] [] [], ofList digits) ∧
      g'.mode = O_WRONLY ∧ g'.tag = 0 ∧ g'.pos_tag = g'.end_tag ∧ g'.end_tag - g'.tag = 4096) ∧
    (∃ r, io61_write stubSys 2 (mkHandle O_WRONLY zeroMem 0 4096 4096) (stubWith [] [] [])
        (ofList digits) 3 = .done r ∧
      r.2.2.1.log = [Call.write (slice zeroMem 0 4096)]) :=
  have H1 := write_flushes_once_at_boundary stubSys (mkHandle O_WRONLY zeroMem 0 0 0)
    (mkHandle O_WRONLY zeroMem 0 4096 4096) (stubWith [] [] []) (ofList digits) (ofList digits)
    2048 3 2 (by decide) (by decide) (by decide) (by decide) (by decide) (by decide)
  have H2 := write_flushes_once_at_boundary stubSys (mkHandle O_WRONLY zeroMem 0 2048 2048)
    (mkHandle O_WRONLY zeroMem 0 4096 4096) (stubWith [] [] []) (ofList digits) (ofList digits)
    2048 3 2 (by decide) (by decide) (by decide) (by decide) (by decide) (by decide)
  ⟨by decide, H1.2.1 (stubWith [] [] []), H2.1, H2.2.2.2 (stubWith [] [] [])⟩

/-- C16 (read-mode seek alignment): for a read-mode handle and a target
`pos >= 0` outside `[tag, end_tag)`, with `a = pos - pos mod 4096`: when the
`lseek` to `a` returns `a` and the fill does not fail, `io61_seek` returns 0,
the descriptor is the one `lseek` left at `a`, read once by the fill (on the
stub: `lseek a` then `read 4096` are recorded), and on return `tag = a` and
`pos_tag = pos`, where `a` is a multiple of 4096 and `a <= pos < a + 4096`. -/
theorem read_seek_aligns_to_block {σ : Type} (sys : Sys σ) (f : io61_file) (w : σ) (pos : Int)
    (hmode : f.mode = O_RDONLY) (hpos : 0 ≤ pos) (hout : ¬ (f.tag ≤ pos ∧ pos < f.end_tag))
    (hls : (sys.lseek w (pos - pos % 4096)).1 = pos - pos % 4096)
    (hfill : (io61_fill sys { f with end_tag := pos - pos % 4096 }
      (sys.lseek w (pos - pos % 4096)).2).1 ≠ -1) :
    (io61_seek sys f w pos).1 = 0 ∧
    (io61_seek sys f w pos).2.2
      = (sys.read (sys.lseek w (pos - pos % 4096)).2 4096).2.2 ∧
    (io61_seek sys f w pos).2.1.tag = pos - pos % 4096 ∧
    (io61_seek sys f w pos).2.1.pos_tag = pos ∧
    (pos - pos % 4096) % 4096 = 0 ∧ pos - pos % 4096 ≤ pos ∧ pos < pos - pos % 4096 + 4096 ∧
    (∀ s : Stub, s.seeks.headD (pos - pos % 4096) = pos - pos % 4096 →
      toInt32 (s.reads.headD (0, [])).1 ≠ -1 →
      (io61_seek stubSys f s pos).2.2.log
        = s.log ++ [Call.lseek (pos - pos % 4096), Call.read 4096]) := by
  have hal : Int.tmod pos 4096 = pos % 4096 := tmod_4096 pos hpos
  have hseek : ∀ {τ : Type} (sy : Sys τ) (v : τ),
      (sy.lseek v (pos - pos % 4096)).1 = pos - pos % 4096 →
      (io61_fill sy { f with end_tag := pos - pos % 4096 } (sy.lseek v (pos - pos % 4096)).2).1 ≠ -1 →
      io61_seek sy f v pos = (0,
        { (io61_fill sy { f with end_tag := pos - pos % 4096 }
            (sy.lseek v (pos - pos % 4096)).2).2.1 with pos_tag := pos },
        (io61_fill sy { f with end_tag := pos - pos % 4096 }
            (sy.lseek v (pos - pos % 4096)).2).2.2) := by
    intro τ sy v h1 h2
    unfold io61_seek
    simp only [hal]
    rw [if_neg hout, if_pos hmode, if_neg (by simpa using h1), if_neg h2]
  have hb : bufsize.toNat = 4096 := rfl
  refine ⟨by rw [hseek sys w hls hfill], ?_, ?_, by rw [hseek sys w hls hfill], by omega, by omega,
    by omega, ?_⟩
  · rw [hseek sys w hls hfill]
    simp only [io61_fill, hb]
  · rw [hseek sys w hls hfill]
    simp only [io61_fill]
    split <;> rfl
  · intro s h1 h2
    rw [hseek stubSys s h1 (by simpa [io61_fill, stubSys] using h2)]
    simp [io61_fill, stubSys, hb]

/-- C16 at the unaligned target 4098 on the stub: the descriptor is moved to
4096, read once, and the handle has start = 4096, cursor = 4098. -/
theorem read_seek_aligns_to_block_witness :
    (mkHandle O_RDONLY zeroMem 0 0 0).mode = O_RDONLY ∧
    (io61_seek stubSys (mkHandle O_RDONLY zeroMem 0 0 0)
      (stubWith [(3, [7, 8, 9])] [] []) 4098).1 = 0 ∧
    (io61_seek stubSys (mkHandle O_RDONLY zeroMem 0 0 0)
      (stubWith [(3, [7, 8, 9])] [] []) 4098).2.1.tag = 4096 ∧
    (io61_seek stubSys (mkHandle O_RDONLY zeroMem 0 0 0)
      (stubWith [(3, [7, 8, 9])] [] []) 4098).2.1.pos_tag = 4098 ∧
    (io61_seek stubSys (mkHandle O_RDONLY zeroMem 0 0 0)
      (stubWith [(3, [7, 8, 9])] [] []) 4098).2.2.log = [Call.lseek 4096, Call.read 4096] :=
  have H := read_seek_aligns_to_block stubSys (mkHandle O_RDONLY zeroMem 0 0 0)
    (stubWith [(3, [7, 8, 9])] [] []) 4098 rfl (by decide) (by decide) (by decide) (by decide)
  ⟨rfl, H.1, H.2.2.1, H.2.2.2.1, H.2.2.2.2.2.2.2 (stubWith [(3, [7, 8, 9])] [] []) (by decide) (by decide)⟩

/-- C17 (fill contract): `io61_fill` issues one underlying read of up to 4096
bytes (the descriptor is left as that read left it; on the stub: one
`read 4096` is recorded). If the read returns `n` with `0 <= n <= 4096`,
having stored `n` bytes, then `tag = pos_tag = e`, `end_tag = e + n`,
`cbuf[0, n)` holds those bytes and `io61_fill` returns `n`; if it returns a
negative `n`, `io61_fill` returns `n` with `tag = pos_tag = end_tag = e`.
Here `e` is the `end_tag` before the call. -/
theorem fill_contract {σ : Type} (sys : Sys σ) (f : io61_file) (w : σ) :
    (io61_fill sys f w).2.2 = (sys.read w 4096).2.2 ∧
    (∀ s : Stub, (io61_fill stubSys f s).2.2.log = s.log ++ [Call.read 4096]) ∧
    (0 ≤ (sys.read w 4096).1 → (sys.read w 4096).1 ≤ 4096 →
      ((sys.read w 4096).2.1.length : Int) = (sys.read w 4096).1 →
      (io61_fill sys f w).1 = (sys.read w 4096).1 ∧
      (io61_fill sys f w).2.1.tag = f.end_tag ∧
      (io61_fill sys f w).2.1.pos_tag = f.end_tag ∧
      (io61_fill sys f w).2.1.end_tag = f.end_tag + (sys.read w 4096).1 ∧
      slice (io61_fill sys f w).2.1.cbuf 0 (sys.read w 4096).1.toNat = (sys.read w 4096).2.1) ∧
    ((sys.read w 4096).1 < 0 → -2147483648 ≤ (sys.read w 4096).1 →
      (io61_fill sys f w).1 = (sys.read w 4096).1 ∧
      (io61_fill sys f w).2.1.tag = f.end_tag ∧
      (io61_fill sys f w).2.1.pos_tag = f.end_tag ∧
      (io61_fill sys f w).2.1.end_tag = f.end_tag) := by
  have hb : bufsize.toNat = 4096 := rfl
  refine ⟨by simp only [io61_fill, hb], fun s => by simp [io61_fill, stubSys, hb], ?_, ?_⟩
  · intro h0 h1 hlen
    unfold io61_fill
    simp only [hb]
    rw [if_pos h0, toInt32_eq_self (by omega) (by omega)]
    refine ⟨rfl, rfl, rfl, rfl, ?_⟩
    simp only
    have hn : (sys.read w 4096).1.toNat = (sys.read w 4096).2.1.length := by omega
    rw [hn]
    conv_rhs => rw [← slice_ofList (sys.read w 4096).2.1]
    apply slice_congr
    intro i hi
    unfold memcpy
    rw [if_pos ⟨Nat.zero_le _, by omega⟩]
    simp
  · intro h0 h1
    unfold io61_fill
    simp only [hb]
    rw [if_neg (by omega), toInt32_eq_self (by omega) (by omega)]
    exact ⟨rfl, rfl, rfl, rfl⟩

/-- C17 on the stub: a read that delivers three bytes, and a read that fails,
from a handle whose `end_tag` is 10. -/
theorem fill_contract_witness :
    ((io61_fill stubSys (mkHandle O_RDONLY zeroMem 0 4 10) (stubWith [(3, [7, 8, 9])] [] [])).1 = 3 ∧
      (io61_fill stubSys (mkHandle O_RDONLY zeroMem 0 4 10) (stubWith [(3, [7, 8, 9])] [] [])).2.1.tag = 10 ∧
      (io61_fill stubSys (mkHandle O_RDONLY zeroMem 0 4 10) (stubWith [(3, [7, 8, 9])] [] [])).2.1.pos_tag = 10 ∧
      (io61_fill stubSys (mkHandle O_RDONLY zeroMem 0 4 10) (stubWith [(3, [7, 8, 9])] [] [])).2.1.end_tag = 13 ∧
      slice (io61_fill stubSys (mkHandle O_RDONLY zeroMem 0 4 10)
        (stubWith [(3, [7, 8, 9])] [] [])).2.1.cbuf 0 3 = [7, 8, 9]) ∧
    ((io61_fill stubSys (mkHandle O_RDONLY zeroMem 0 4 10) (stubWith [(-1, [])] [] [])).1 = -1 ∧
      (io61_fill stubSys (mkHandle O_RDONLY zeroMem 0 4 10) (stubWith [(-1, [])] [] [])).2.1.tag = 10 ∧
      (io61_fill stubSys (mkHandle O_RDONLY zeroMem 0 4 10) (stubWith [(-1, [])] [] [])).2.1.pos_tag = 10 ∧
      (io61_fill stubSys (mkHandle O_RDONLY zeroMem 0 4 10) (stubWith [(-1, [])] [] [])).2.1.end_tag = 10) :=
  ⟨(fill_contract stubSys (mkHandle O_RDONLY zeroMem 0 4 10) (stubWith [(3, [7, 8, 9])] [] [])).2.2.1
      (by decide) (by decide) (by decide),
   (fill_contract stubSys (mkHandle O_RDONLY zeroMem 0 4 10) (stubWith [(-1, [])] [] [])).2.2.2
      (by decide) (by decide)⟩

/-! ## Where the loops stop making progress -/

theorem read_iter_of_2pow32 {σ : Type} (sys : Sys σ) (f : io61_file) (w : σ) (buf : Mem)
    (h1 : f.tag ≤ f.pos_tag) (h2 : f.pos_tag < f.end_tag) (h3 : f.end_tag - f.tag ≤ 4096) :
    io61_read_iter sys f w buf 4294967296 0 =
      .next ({ f with pos_tag := f.pos_tag + 0 }, w,
        memcpy buf 0 f.cbuf (f.pos_tag - f.tag).toNat 0, 0) := by
  have e1 : toInt32 (f.end_tag - f.pos_tag) = f.end_tag - f.pos_tag :=
    toInt32_eq_self (by omega) (by omega)
  have e2 : toInt32 (((4294967296 : Nat) : Int) - ((0 : Nat) : Int)) = 0 := by
    unfold toInt32; omega
  have e3 : min (f.end_tag - f.pos_tag) 0 = 0 := by omega
  unfold io61_read_iter
  rw [if_pos (by omega), if_neg (by omega)]
  unfold io61_read_copy
  simp only [e1, e2, e3]
  rw [if_neg (by unfold bufsize; omega)]
  rfl

/-- With `sz = 2^32` and bytes in the cache, the loop of `io61_read` copies
nothing in any iteration and so uses up any fuel. -/
theorem read_loop_of_2pow32 {σ : Type} (sys : Sys σ) (fuel : Nat) :
    ∀ (f : io61_file) (w : σ) (buf : Mem), f.tag ≤ f.pos_tag → f.pos_tag < f.end_tag →
      f.end_tag - f.tag ≤ 4096 →
      io61_read_loop sys fuel f w buf 4294967296 0 = .outOfFuel := by
  induction fuel with
  | zero => intro f w buf _ _ _; rfl
  | succ fuel ih =>
    intro f w buf h1 h2 h3
    unfold io61_read_loop
    rw [read_iter_of_2pow32 sys f w buf h1 h2 h3]
    exact ih _ _ _ (by simp only; omega) (by simp only; omega) (by simp only; omega)

/-- C15 (read copy amount), evaluated where the code departs from it, on a
handle with the six bytes `[4, 10)` in its cache. With `sz = 2^32` the cast
gives 0: the iteration copies no byte and leaves cursor and total as they
were, and `io61_read` never returns. With `sz = 2^31` the cast is negative
and the copy has a negative length. With `sz = 2^32 + 1` the iteration copies
1 byte, not `min(6, sz) = 6`. -/
theorem read_copy_amount_truncated :
    (∃ g b, io61_read_iter stubSys (mkHandle O_RDONLY (ofList digits) 0 4 10) (stubWith [] [] [])
        zeroMem 4294967296 0 = .next (g, stubWith [] [] [], b, 0) ∧ g.pos_tag = 4) ∧
    (∀ fuel, io61_read stubSys fuel (mkHandle O_RDONLY (ofList digits) 0 4 10) (stubWith [] [] [])
        zeroMem 4294967296 = .outOfFuel) ∧
    io61_read stubSys 1 (mkHandle O_RDONLY (ofList digits) 0 4 10) (stubWith [] [] [])
        zeroMem 2147483648 = .undefined ∧
    (∃ g b, io61_read_iter stubSys (mkHandle O_RDONLY (ofList digits) 0 4 10) (stubWith [] [] [])
        zeroMem 4294967297 0 = .next (g, stubWith [] [] [], b, 1) ∧ g.pos_tag = 5) :=
  ⟨⟨_, _, rfl, by decide⟩,
   fun fuel => read_loop_of_2pow32 stubSys fuel _ _ _ (by decide) (by decide) (by decide),
   rfl, ⟨_, _, rfl, by decide⟩⟩

theorem write_iter_stuck {σ : Type} (sys : Sys σ) (f : io61_file) (w : σ) (buf : Mem)
    (sz pos : Nat) (hmode : f.mode = O_WRONLY) (h1 : f.pos_tag = f.tag)
    (h2 : f.end_tag = f.tag + 4096) (hok : toInt32 (sys.write w f.cbuf 0).1 ≠ -1)
    (hpos : pos < sz) (hsz : sz < 2147483648) :
    io61_write_iter sys f w buf sz pos =
      .next ({ f with cbuf := memcpy f.cbuf 0 buf pos 0, tag := f.pos_tag,
                      pos_tag := f.pos_tag + 0, end_tag := f.end_tag + 0 },
        (sys.write w f.cbuf 0).2, buf, pos) := by
  have hm : ¬ f.mode = O_RDONLY := by rw [hmode]; decide
  have hcount : f.pos_tag - f.tag = 0 := by omega
  have hfl : io61_flush sys f w = (toInt32 (sys.write w f.cbuf 0).1,
      { f with tag := f.pos_tag }, (sys.write w f.cbuf 0).2) := by
    unfold io61_flush
    rw [if_neg hm, hcount]
  have e1 : toInt32 (bufsize + f.pos_tag - f.end_tag) = 0 := by
    unfold bufsize toInt32; omega
  have e2 : toInt32 ((sz : Int) - pos) = (sz : Int) - pos :=
    toInt32_eq_self (by omega) (by omega)
  have e3 : min (0 : Int) ((sz : Int) - pos) = 0 := by omega
  unfold io61_write_iter
  rw [if_pos hpos, if_pos (by unfold bufsize; omega), hfl]
  simp only
  rw [if_neg hok]
  unfold io61_write_copy
  simp only [e1, e2, e3]
  rw [if_neg (by unfold bufsize; omega)]
  simp

/-- A write-mode handle whose cursor stands at the start of a full window
never gets out of the loop of `io61_write`: each iteration flushes no byte
and copies no byte. -/
theorem write_loop_stuck {σ : Type} (sys : Sys σ) (buf : Mem) (sz pos : Nat)
    (hok : ∀ v m, toInt32 (sys.write v m 0).1 ≠ -1) (hpos : pos < sz) (hsz : sz < 2147483648)
    (fuel : Nat) : ∀ (f : io61_file) (w : σ), f.mode = O_WRONLY → f.pos_tag = f.tag →
      f.end_tag = f.tag + 4096 → io61_write_loop sys fuel f w buf sz pos = .outOfFuel := by
  induction fuel with
  | zero => intro f w _ _ _; rfl
  | succ fuel ih =>
    intro f w hmode h1 h2
    unfold io61_write_loop
    rw [write_iter_stuck sys f w buf sz pos hmode h1 h2 (hok w f.cbuf) hpos hsz]
    exact ih _ _ hmode (by simp only; omega) (by simp only; omega)

theorem fileSys_write_zero (v : FileDesc) (m : Mem) : toInt32 (fileSys.write v m 0).1 ≠ -1 := by
  simp [fileSys, toInt32]

/-- C18 (write progress), evaluated where the code departs from it: from an
empty write cache at 0 over an empty file, `io61_write` of 4096 bytes returns
4096 and `io61_seek` to 0 (the start of the window) returns 0, leaving a state
that satisfies the invariant (start = cursor = 0, end = 4096); the
`io61_write` of one byte that follows, with no underlying write failing,
buffers nothing in any iteration and never returns. -/
theorem write_after_seek_to_window_start_never_returns :
    ∃ f1 w1, io61_write fileSys 2 (mkHandle O_WRONLY zeroMem 0 0 0) (fileAt [] 0) zeroMem 4096
        = .done (4096, f1, w1, zeroMem) ∧
      (io61_seek fileSys f1 w1 0).1 = 0 ∧
      (io61_seek fileSys f1 w1 0).2.1.mode = O_WRONLY ∧
      Inv (io61_seek fileSys f1 w1 0).2.1 ∧
      (io61_seek fileSys f1 w1 0).2.1.tag = 0 ∧
      (io61_seek fileSys f1 w1 0).2.1.pos_tag = 0 ∧
      (io61_seek fileSys f1 w1 0).2.1.end_tag = 4096 ∧
      (∃ g b, io61_write_iter fileSys (io61_seek fileSys f1 w1 0).2.1 (io61_seek fileSys f1 w1 0).2.2
          (ofList [65]) 1 0 = .next (g, fileAt [] 0, b, 0) ∧ g.pos_tag = 0 ∧ g.end_tag = 4096) ∧
      ∀ fuel, io61_write fileSys fuel (io61_seek fileSys f1 w1 0).2.1 (io61_seek fileSys f1 w1 0).2.2
        (ofList [65]) 1 = .outOfFuel :=
  ⟨_, _, write_within_room fileSys (mkHandle O_WRONLY zeroMem 0 0 0) (fileAt [] 0) zeroMem 4096 2
      (by decide) (by decide) (by decide) (by decide) (by decide),
    by decide, by decide, by decide, by decide, by decide, by decide,
    ⟨_, _, rfl, by decide, by decide⟩,
    fun fuel => write_loop_stuck fileSys (ofList [65]) 1 0 fileSys_write_zero (by decide)
      (by decide) fuel _ _ (by decide) (by decide) (by decide)⟩

/-- C19 (seek then write), evaluated where the code departs from it: over the
file "0123456789", from an empty write cache at 0, `io61_seek` to 2, then
`io61_write` of the two bytes 88 89, then `io61_flush`. The underlying write
is sent four bytes, two stale buffer bytes and then the source (on the stub:
`write [0, 0, 88, 89]` after `lseek 2`), so the file holds 0 0 at `[2, 4)` and
the source at `[4, 6)`, not at `[2, 4)`. -/
theorem seek_then_write_lands_past_target :
    (∃ f2 w2 b, io61_write fileSys 2
        (io61_seek fileSys (mkHandle O_WRONLY zeroMem 0 0 0) (fileAt digits 0) 2).2.1
        (io61_seek fileSys (mkHandle O_WRONLY zeroMem 0 0 0) (fileAt digits 0) 2).2.2
        (ofList [88, 89]) 2 = .done (2, f2, w2, b) ∧
      (io61_flush fileSys f2 w2).1 = 4 ∧
      (io61_flush fileSys f2 w2).2.2.content = [48, 49, 0, 0, 88, 89, 54, 55, 56, 57] ∧
      (io61_flush fileSys f2 w2).2.2.content ≠ [48, 49, 88, 89, 52, 53, 54, 55, 56, 57]) ∧
    (∃ f2 w2 b, io61_write stubSys 2
        (io61_seek stubSys (mkHandle O_WRONLY zeroMem 0 0 0) (stubWith [] [] []) 2).2.1
        (io61_seek stubSys (mkHandle O_WRONLY zeroMem 0 0 0) (stubWith [] [] []) 2).2.2
        (ofList [88, 89]) 2 = .done (2, f2, w2, b) ∧
      (io61_flush stubSys f2 w2).2.2.log
        = [Call.write [], Call.lseek 2, Call.write [0, 0, 88, 89]]) :=
  ⟨⟨_, _, _, rfl, by decide, by decide, by decide⟩, ⟨_, _, _, rfl, by decide⟩⟩

/-! ## Buffer accesses -/

/-- The copy step of `io61_read` is the `memcpy` that `io61_read_copy_rec`
describes, and faults exactly when that leaves `cbuf` or has a negative length. -/
theorem read_copy_is_rec {σ : Type} (f : io61_file) (w : σ) (buf : Mem) (sz pos : Nat) :
    io61_read_copy f w buf sz pos =
      if (io61_read_copy_rec f sz pos).len < 0 ∨ (io61_read_copy_rec f sz pos).off < 0 ∨
          (io61_read_copy_rec f sz pos).off + (io61_read_copy_rec f sz pos).len > bufsize
      then .undefined
      else .next ({ f with pos_tag := f.pos_tag + (io61_read_copy_rec f sz pos).len }, w,
        memcpy buf (io61_read_copy_rec f sz pos).pos f.cbuf (io61_read_copy_rec f sz pos).off.toNat
          (io61_read_copy_rec f sz pos).len.toNat,
        pos + (io61_read_copy_rec f sz pos).len.toNat) := rfl

/-- The copy step of `io61_write` is the `memcpy` that `io61_write_copy_rec`
describes, and faults exactly when that leaves `cbuf` or has a negative length. -/
theorem write_copy_is_rec {σ : Type} (f : io61_file) (w : σ) (buf : Mem) (sz pos : Nat) :
    io61_write_copy f w buf sz pos =
      if (io61_write_copy_rec f sz pos).len < 0 ∨ (io61_write_copy_rec f sz pos).off < 0 ∨
          (io61_write_copy_rec f sz pos).off + (io61_write_copy_rec f sz pos).len > bufsize
      then .undefined
      else .next ({ f with
          cbuf := memcpy f.cbuf (io61_write_copy_rec f sz pos).off.toNat buf
            (io61_write_copy_rec f sz pos).pos (io61_write_copy_rec f sz pos).len.toNat,
          pos_tag := f.pos_tag + (io61_write_copy_rec f sz pos).len,
          end_tag := f.end_tag + (io61_write_copy_rec f sz pos).len }, w, buf,
        pos + (io61_write_copy_rec f sz pos).len.toNat) := rfl

/-- An iteration of `io61_read` is its copy step, at the state `io61_read_copy_at` gives. -/
theorem read_iter_is_copy_at {σ : Type} (sys : Sys σ) (f : io61_file) (w : σ) (buf : Mem)
    (sz pos : Nat) :
    (∀ g, io61_read_copy_at sys f w sz pos = some g →
      io61_read_iter sys f w buf sz pos = io61_read_copy g.1 g.2 buf sz pos) ∧
    (io61_read_copy_at sys f w sz pos = none → ∃ r, io61_read_iter sys f w buf sz pos = .ret r) := by
  unfold io61_read_copy_at io61_read_iter
  split_ifs <;> simp [*]

/-- An iteration of `io61_write` is its copy step, at the state `io61_write_copy_at` gives. -/
theorem write_iter_is_copy_at {σ : Type} (sys : Sys σ) (f : io61_file) (w : σ) (buf : Mem)
    (sz pos : Nat) :
    (∀ g, io61_write_copy_at sys f w sz pos = some g →
      io61_write_iter sys f w buf sz pos = io61_write_copy g.1 g.2 buf sz pos) ∧
    (io61_write_copy_at sys f w sz pos = none → ∃ r, io61_write_iter sys f w buf sz pos = .ret r) := by
  unfold io61_write_copy_at io61_write_iter
  split_ifs <;> simp [*]

theorem read_copy_at_inv {σ : Type} (sys : Sys σ) (hread : ReadsConform sys) (f : io61_file)
    (w : σ) (sz pos : Nat) (hinv : Inv f) (g : io61_file × σ)
    (h : io61_read_copy_at sys f w sz pos = some g) : Inv g.1 ∧ pos < sz := by
  unfold io61_read_copy_at at h
  split_ifs at h with h1 h2 h3 h4
  · simp only [Option.some.injEq] at h
    subst h
    exact ⟨(fill_inv sys hread f w).1, h1⟩
  · simp only [Option.some.injEq] at h
    subst h
    exact ⟨hinv, h1⟩

theorem write_copy_at_inv {σ : Type} (sys : Sys σ) (f : io61_file)
    (w : σ) (sz pos : Nat) (hinv : Inv f) (g : io61_file × σ)
    (h : io61_write_copy_at sys f w sz pos = some g) : Inv g.1 ∧ pos < sz := by
  unfold io61_write_copy_at at h
  split_ifs at h with h1 h2 h3
  · simp only [Option.some.injEq] at h
    subst h
    exact ⟨flush_inv sys f w hinv, h1⟩
  · simp only [Option.some.injEq] at h
    subst h
    exact ⟨hinv, h1⟩

/-- From a state within the invariant the copy of `io61_read` is in bounds,
and hands on a state within the invariant with `pos <= sz`. -/
theorem read_copy_in_bounds {σ : Type} (f : io61_file) (w : σ) (buf : Mem) (sz pos : Nat)
    (hinv : Inv f) (hpos : pos < sz) (hsz : sz < 2147483648) :
    (io61_read_copy_rec f sz pos).InBounds sz ∧
    ∃ s, io61_read_copy f w buf sz pos = .next s ∧ Inv s.1 ∧ s.2.2.2 ≤ sz := by
  have hk := read_copy_inv f w buf sz pos hinv
  obtain ⟨h1, h2, h3⟩ := hinv
  unfold bufsize at h3
  have e1 : toInt32 (f.end_tag - f.pos_tag) = f.end_tag - f.pos_tag :=
    toInt32_eq_self (by omega) (by omega)
  have e2 : toInt32 ((sz : Int) - pos) = (sz : Int) - pos :=
    toInt32_eq_self (by omega) (by omega)
  have hb : (io61_read_copy_rec f sz pos).InBounds sz := by
    simp only [CopyRec.InBounds, io61_read_copy_rec, e1, e2, bufsize]
    omega
  refine ⟨hb, ?_⟩
  obtain ⟨b1, b2, b3, b4⟩ := hb
  have b4' : (pos : Int) + (io61_read_copy_rec f sz pos).len ≤ sz := b4
  rw [read_copy_is_rec] at hk ⊢
  rw [if_neg (by omega)] at hk ⊢
  refine ⟨_, rfl, hk, ?_⟩
  show pos + (io61_read_copy_rec f sz pos).len.toNat ≤ sz
  omega

/-- From a state within the invariant the copy of `io61_write` is in bounds,
and hands on a state within the invariant with `pos <= sz`. -/
theorem write_copy_in_bounds {σ : Type} (f : io61_file) (w : σ) (buf : Mem) (sz pos : Nat)
    (hinv : Inv f) (hpos : pos < sz) (hsz : sz < 2147483648) :
    (io61_write_copy_rec f sz pos).InBounds sz ∧
    ∃ s, io61_write_copy f w buf sz pos = .next s ∧ Inv s.1 ∧ s.2.2.2 ≤ sz := by
  have hk := write_copy_inv f w buf sz pos hinv
  obtain ⟨h1, h2, h3⟩ := hinv
  unfold bufsize at h3
  have e1 : toInt32 (bufsize + f.tag - f.end_tag) = 4096 + f.tag - f.end_tag := by
    unfold bufsize; exact toInt32_eq_self (by omega) (by omega)
  have e2 : toInt32 ((sz : Int) - pos) = (sz : Int) - pos :=
    toInt32_eq_self (by omega) (by omega)
  have hb : (io61_write_copy_rec f sz pos).InBounds sz := by
    simp only [CopyRec.InBounds, io61_write_copy_rec, e1, e2]
    unfold bufsize
    omega
  refine ⟨hb, ?_⟩
  obtain ⟨b1, b2, b3, b4⟩ := hb
  have b4' : (pos : Int) + (io61_write_copy_rec f sz pos).len ≤ sz := b4
  rw [write_copy_is_rec] at hk ⊢
  rw [if_neg (by omega)] at hk ⊢
  refine ⟨_, rfl, hk, ?_⟩
  show pos + (io61_write_copy_rec f sz pos).len.toNat ≤ sz
  omega

theorem read_loop_in_bounds {σ : Type} (sys : Sys σ) (hread : ReadsConform sys) (sz : Nat)
    (hsz : sz < 2147483648) (fuel : Nat) : ∀ (f : io61_file) (w : σ) (buf : Mem) (pos : Nat),
    Inv f → pos ≤ sz →
    (∀ c ∈ io61_read_copies sys fuel f w buf sz pos, c.InBounds sz) ∧
    io61_read_loop sys fuel f w buf sz pos ≠ .undefined := by
  induction fuel with
  | zero =>
    intro f w buf pos _ _
    exact ⟨by simp [io61_read_copies], by simp [io61_read_loop]⟩
  | succ fuel ih =>
    intro f w buf pos hinv hpos
    unfold io61_read_copies io61_read_loop
    have hfaith := read_iter_is_copy_at sys f w buf sz pos
    have hat := read_copy_at_inv sys hread f w sz pos hinv
    generalize io61_read_copy_at sys f w sz pos = o at hfaith hat
    cases o with
    | none =>
      obtain ⟨r, hr⟩ := hfaith.2 rfl
      rw [hr]
      exact ⟨by simp, by simp⟩
    | some g =>
      obtain ⟨hg, hlt⟩ := hat g rfl
      obtain ⟨hb, s, hs, hsi, hsp⟩ := read_copy_in_bounds g.1 g.2 buf sz pos hg hlt hsz
      dsimp only
      rw [hfaith.1 g rfl, hs]
      dsimp only
      obtain ⟨ih1, ih2⟩ := ih s.1 s.2.1 s.2.2.1 s.2.2.2 hsi hsp
      refine ⟨?_, ih2⟩
      intro c hc
      rcases List.mem_cons.mp hc with rfl | hc
      · exact hb
      · exact ih1 c hc

theorem write_loop_in_bounds {σ : Type} (sys : Sys σ) (sz : Nat)
    (hsz : sz < 2147483648) (fuel : Nat) : ∀ (f : io61_file) (w : σ) (buf : Mem) (pos : Nat),
    Inv f → pos ≤ sz →
    (∀ c ∈ io61_write_copies sys fuel f w buf sz pos, c.InBounds sz) ∧
    io61_write_loop sys fuel f w buf sz pos ≠ .undefined := by
  induction fuel with
  | zero =>
    intro f w buf pos _ _
    exact ⟨by simp [io61_write_copies], by simp [io61_write_loop]⟩
  | succ fuel ih =>
    intro f w buf pos hinv hpos
    unfold io61_write_copies io61_write_loop
    have hfaith := write_iter_is_copy_at sys f w buf sz pos
    have hat := write_copy_at_inv sys f w sz pos hinv
    generalize io61_write_copy_at sys f w sz pos = o at hfaith hat
    cases o with
    | none =>
      obtain ⟨r, hr⟩ := hfaith.2 rfl
      rw [hr]
      exact ⟨by simp, by simp⟩
    | some g =>
      obtain ⟨hg, hlt⟩ := hat g rfl
      obtain ⟨hb, s, hs, hsi, hsp⟩ := write_copy_in_bounds g.1 g.2 buf sz pos hg hlt hsz
      dsimp only
      rw [hfaith.1 g rfl, hs]
      dsimp only
      obtain ⟨ih1, ih2⟩ := ih s.1 s.2.1 s.2.2.1 s.2.2.2 hsi hsp
      refine ⟨?_, ih2⟩
      intro c hc
      rcases List.mem_cons.mp hc with rfl | hc
      · exact hb
      · exact ih1 c hc

/-- C20 (buffer accesses stay in bounds): from a state with
`tag <= pos_tag <= end_tag` and `end_tag - tag <= 4096`, for `sz < 2^31` and
underlying reads that return -1 or a count within the 4096 asked for, every
copy that `io61_read` and `io61_write` perform, in any number of iterations,
has a length `>= 0`, an offset `pos_tag - tag >= 0` into `cbuf` with
offset + length `<= 4096`, and a range `[pos, pos + length)` of the caller's
buffer inside `[0, sz)`, and neither call faults; and the count `io61_flush`
passes to the underlying write is `pos_tag - tag`, between 0 and 4096. -/
theorem copies_stay_in_bounds {σ : Type} (sys : Sys σ) (f : io61_file) (w : σ) (buf : Mem)
    (sz fuel : Nat) (hread : ReadsConform sys) (hinv : Inv f) (hsz : sz < 2147483648) :
    (∀ c ∈ io61_read_copies sys fuel f w buf sz 0, c.InBounds sz) ∧
    io61_read sys fuel f w buf sz ≠ .undefined ∧
    (∀ c ∈ io61_write_copies sys fuel f w buf sz 0, c.InBounds sz) ∧
    io61_write sys fuel f w buf sz ≠ .undefined ∧
    (f.mode ≠ O_RDONLY →
      (io61_flush sys f w).2.2 = (sys.write w f.cbuf (f.pos_tag - f.tag)).2) ∧
    0 ≤ f.pos_tag - f.tag ∧ f.pos_tag - f.tag ≤ 4096 := by
  obtain ⟨r1, r2⟩ := read_loop_in_bounds sys hread sz hsz fuel f w buf 0 hinv (by omega)
  obtain ⟨w1, w2⟩ := write_loop_in_bounds sys sz hsz fuel f w buf 0 hinv (by omega)
  obtain ⟨h1, h2, h3⟩ := hinv
  unfold bufsize at h3
  refine ⟨r1, r2, w1, w2, ?_, by omega, by omega⟩
  intro hm
  unfold io61_flush
  rw [if_neg hm]

/-- C20 at two concrete calls on a regular file: a write of 10 bytes with 6
bytes of room left copies 6 bytes to `cbuf[4090, 4096)`, flushes, and copies
4 bytes to `cbuf[0, 4)`; a read of 8 bytes with 6 bytes cached copies those 6
from `cbuf[4, 10)` and finds the file at its end. -/
theorem copies_stay_in_bounds_witness :
    (Inv (mkHandle O_WRONLY zeroMem 0 4090 4090) ∧
      (io61_write_copies fileSys 3 (mkHandle O_WRONLY zeroMem 0 4090 4090) (fileAt [] 0)
        (ofList digits) 10 0).map (fun c => (c.off, c.len, c.pos)) = [(4090, 6, 0), (0, 4, 6)] ∧
      (∀ c ∈ io61_write_copies fileSys 3 (mkHandle O_WRONLY zeroMem 0 4090 4090) (fileAt [] 0)
        (ofList digits) 10 0, c.InBounds 10)) ∧
    (Inv (mkHandle O_RDONLY (ofList digits) 0 4 10) ∧
      (io61_read_copies fileSys 3 (mkHandle O_RDONLY (ofList digits) 0 4 10) (fileAt digits 10)
        zeroMem 8 0).map (fun c => (c.off, c.len, c.pos)) = [(4, 6, 0)] ∧
      (∀ c ∈ io61_read_copies fileSys 3 (mkHandle O_RDONLY (ofList digits) 0 4 10)
        (fileAt digits 10) zeroMem 8 0, c.InBounds 8)) :=
  ⟨⟨by decide, by decide,
      (copies_stay_in_bounds fileSys (mkHandle O_WRONLY zeroMem 0 4090 4090) (fileAt [] 0)
        (ofList digits) 10 3 fileSys_reads_conform (by decide) (by decide)).2.2.1⟩,
   ⟨by decide, by decide,
      (copies_stay_in_bounds fileSys (mkHandle O_RDONLY (ofList digits) 0 4 10) (fileAt digits 10)
        zeroMem 8 3 fileSys_reads_conform (by decide) (by decide)).1⟩⟩

end Io61
